import Mathlib

/-!
# Dataproc batch-record flattener (`main.go`)

A shallow embedding of `main.go`: the per-record pipeline (required-field
check, property-key sanitisation, RFC3339 timestamp arithmetic, the
`stateHistory` scan, the construction of the flattened output record), the
loop over the array and the exit status of `main`.

Conventions of the embedding.

* A Go `string` decoded from JSON is a Lean `String`; the standard-library
  routines that scan bytes (`strings.ReplaceAll`, `time.Parse`) are written
  over its list of characters.  Every byte these routines test for is ASCII.
* A Go `map[string]string` is the list of its entries in the order in which
  `range` visits them.
* `encoding/json` is not modelled: the input of the loop is the sequence of
  outcomes of the successive `decoder.Decode` calls, and an output line is
  the `OutputData` value handed to `json.Marshal` (which cannot fail on a
  struct of strings and a `map[string]string`).
* `float64` values are signed dyadic rationals and every floating-point
  operation rounds to nearest, ties to even, with a 53-bit significand.
-/

namespace DataprocFlatten

/-! ## Data model (`InputData`, `OutputData`) -/

/-- One entry of `InputData.StateHistory`. -/
structure StateHistoryEntry where
  State : String
  StateStartTime : String
  deriving DecidableEq, Repr

/-- The struct `InputData.RuntimeInfo.ApproximateUsage`. -/
structure ApproximateUsage where
  AcceleratorType : String
  MilliDcuSeconds : String
  ShuffleStorageGbSeconds : String
  deriving DecidableEq, Repr

/-- The struct `InputData`; nested single-field structs are flattened into
`LabelsLocation`, `Properties` and `Usage`. -/
structure InputData where
  BatchType : String
  CreateTime : String
  Creator : String
  LabelsLocation : String
  Properties : List (String × String)
  State : String
  StateTime : String
  StateHistory : List StateHistoryEntry
  Usage : ApproximateUsage
  deriving DecidableEq, Repr

/-- The struct `OutputData`. -/
structure OutputData where
  BatchType : String
  CreateTime : String
  Creator : String
  GoogDataprocLocation : String
  Properties : List (String × String)
  State : String
  AcceleratorType : String
  MilliDcuSeconds : String
  ShuffleStorageGbSeconds : String
  ElapsedTime : String
  RunTime : String
  deriving DecidableEq, Repr

/-! ## `strings.ReplaceAll` and key sanitisation -/

/-- Worker of `replaceAll` for a non-empty `old`: `skip` counts the characters
of a match that are still to be dropped. -/
def replaceAllAux (old new : List Char) : Nat → List Char → List Char
  | _, [] => []
  | skip + 1, _ :: cs => replaceAllAux old new skip cs
  | 0, c :: cs =>
    if old.isPrefixOf (c :: cs) then new ++ replaceAllAux old new (old.length - 1) cs
    else c :: replaceAllAux old new 0 cs

/-- Go `strings.ReplaceAll(s, old, new)`: every non-overlapping occurrence of
`old`, found left to right, is replaced by `new`; an empty `old` matches before
every character and at the end. -/
def replaceAll (s old new : String) : String :=
  if old.data = [] then
    ⟨new.data ++ s.data.flatMap (fun c => c :: new.data)⟩
  else
    ⟨replaceAllAux old.data new.data 0 s.data⟩

/-- Lines 102-103 of `main.go`: the sanitised form of one property key. -/
def sanitizeKey (key : String) : String :=
  replaceAll (replaceAll key ":" "_") "." "_"

/-- Go map assignment `m[k] = v` on the entry list of a map: an existing key
keeps its place and takes the new value, a new key is added at the end. -/
def mapSet : List (String × String) → String → String → List (String × String)
  | [], k, v => [(k, v)]
  | (k', v') :: m, k, v => if k' = k then (k, v) :: m else (k', v') :: mapSet m k v

/-- Go map lookup `m[k]` with the `ok` flag. -/
def mapGet : List (String × String) → String → Option String
  | [], _ => none
  | (k', v') :: m, k => if k' = k then some v' else mapGet m k

/-- Lines 100-105 of `main.go`: the loop that fills `sanitizedProperties`,
started from the map `acc`. -/
def sanitizeLoop : List (String × String) → List (String × String) → List (String × String)
  | [], acc => acc
  | (key, value) :: rest, acc => sanitizeLoop rest (mapSet acc (sanitizeKey key) value)

/-- Lines 100-105 of `main.go`: `sanitizedProperties` for the given
`Properties`, visited in list order. -/
def sanitizeProperties (props : List (String × String)) : List (String × String) :=
  sanitizeLoop props []

/-! ## `time.Parse(time.RFC3339, value)`

The layout `"2006-01-02T15:04:05Z07:00"` is fixed, so the generic layout
interpreter of package `time` (Go 1.20 and later) is unrolled into the chunks
of that layout.  Since every string accepted by the fast path `parseRFC3339`
is accepted by the generic path with the same result, the generic path alone
decides the outcome. -/

/-- A `time.Time` as an instant: seconds since the Unix epoch and the
nanosecond within the second (`0 ≤ nsec < 10^9`). -/
structure Time where
  sec : Int
  nsec : Nat
  deriving DecidableEq, Repr

/-- The test `'0' <= c && c <= '9'`. -/
def isDigitChar (c : Char) : Bool :=
  decide (48 ≤ c.toNat) && decide (c.toNat ≤ 57)

/-- The value `c - '0'` of a digit. -/
def digitVal (c : Char) : Nat :=
  c.toNat - 48

/-- Go `isDigit(s, i)`: index `i` is in range and holds a decimal digit. -/
def isDigit (s : List Char) (i : Nat) : Bool :=
  match s.drop i with
  | c :: _ => isDigitChar c
  | [] => false

/-- Go `getnum(s, fixed)`: a one- or two-digit number (exactly two digits when
`fixed`) and the rest of the input. -/
def getnum (s : List Char) (fixed : Bool) : Option (Nat × List Char) :=
  if !isDigit s 0 then none
  else if !isDigit s 1 then
    if fixed then none
    else
      match s with
      | c0 :: rest => some (digitVal c0, rest)
      | [] => none
  else
    match s with
    | c0 :: c1 :: rest => some (digitVal c0 * 10 + digitVal c1, rest)
    | _ => none

/-- Go `atoi` at its two call sites in `parse`, where the argument starts with
a digit (so no sign is read): the value of a string of digits only. -/
def atoi (s : List Char) : Option Nat :=
  if s.all isDigitChar then some (s.foldl (fun acc c => acc * 10 + digitVal c) 0)
  else none

/-- Go `skip(value, prefix)` for a one-character prefix other than a space. -/
def skipChar (value : List Char) (c : Char) : Option (List Char) :=
  match value with
  | c' :: rest => if c' = c then some rest else none
  | [] => none

/-- Go `isLeap(year)`. -/
def isLeap (year : Nat) : Bool :=
  year % 4 == 0 && (year % 100 != 0 || year % 400 == 0)

/-- Go `daysIn(month, year)`. -/
def daysIn (month year : Nat) : Nat :=
  if month = 2 then (if isLeap year then 29 else 28)
  else if month = 4 ∨ month = 6 ∨ month = 9 ∨ month = 11 then 30
  else 31

/-- Go table `daysBefore`: days of a non-leap year before the given month
(`1 ≤ month ≤ 12`). -/
def daysBefore (month : Nat) : Nat :=
  [0, 31, 59, 90, 120, 151, 181, 212, 243, 273, 304, 334].getD (month - 1) 0

/-- Days from 0000-01-01 to the first of January of `year` in the proleptic
Gregorian calendar. -/
def daysBeforeYear (year : Nat) : Nat :=
  365 * year + (year + 3) / 4 - (year + 99) / 100 + (year + 399) / 400

/-- Go `Date(year, month, day, hour, min, sec, nsec, UTC)` followed by
`addSec(-zoneOffset)`, for field values already in range. -/
def dateUTC (year month day hour min sec nsec : Nat) (zoneOffset : Int) : Time :=
  let days : Nat :=
    daysBeforeYear year + daysBefore month + (if isLeap year && decide (3 ≤ month) then 1 else 0)
      + (day - 1)
  let abs : Int := (days : Int) * 86400 + (hour * 3600 + min * 60 + sec : Nat)
  ⟨abs - 719528 * 86400 - zoneOffset, nsec⟩

/-- Go `commaOrPeriod`. -/
def commaOrPeriod (c : Char) : Bool :=
  c == '.' || c == ','

/-- The fractional-second special case after the seconds field: when the
input continues with `.` or `,` and a digit, all following digits are consumed
and `parseNanoseconds` reads the first nine of them, scaled to nanoseconds. -/
def parseFraction (value : List Char) : Option (Nat × List Char) :=
  match value with
  | c :: rest =>
    if commaOrPeriod c && isDigit value 1 then
      let digits := rest.takeWhile isDigitChar
      let kept := digits.take 9
      match atoi kept with
      | some ns => some (ns * 10 ^ (9 - kept.length), rest.dropWhile isDigitChar)
      | none => none
    else some (0, value)
  | [] => some (0, value)

/-- The chunk `Z07:00` of the layout: either `Z`, or a sign, two digits, a
colon and two digits; the result is the zone offset in seconds. -/
def parseZone (value : List Char) : Option (Int × List Char) :=
  match value with
  | 'Z' :: rest => some (0, rest)
  | _ =>
    if value.length < 6 then none
    else if (value.drop 3).head? != some ':' then none
    else
      match getnum ((value.drop 1).take 2) true, getnum ((value.drop 4).take 2) true with
      | some (hr, _), some (mm, _) =>
        if hr > 24 then none
        else if mm > 60 then none
        else
          let zoneOffset : Int := ((hr * 60 + mm) * 60 : Nat)
          match value.head? with
          | some '+' => some (zoneOffset, value.drop 6)
          | some '-' => some (-zoneOffset, value.drop 6)
          | _ => none
      | _, _ => none

/-- An error return of `parse` when `bad` holds (`errBad` or a range error). -/
def failIf (bad : Bool) : Option Unit :=
  if bad then none else some ()

/-- A numeric chunk of the layout followed by its range test: `getnum`, then
a range error unless `lo ≤ n < hi`. -/
def getnumRange (value : List Char) (fixed : Bool) (lo hi : Nat) : Option (Nat × List Char) :=
  match getnum value fixed with
  | some (n, rest) => if n < lo ∨ hi ≤ n then none else some (n, rest)
  | none => none

/-- The chunks `2006-01-02T` of the layout: year, month (with its range test)
and day (any two digits; the day is validated at the end of `parse`). -/
def parseDateChunks (v : List Char) : Option ((Nat × Nat × Nat) × List Char) := do
  failIf (decide (v.length < 4) || !isDigit v 0)
  let year ← atoi (v.take 4)
  let v ← skipChar (v.drop 4) '-'
  let mv ← getnumRange v true 1 13
  let v ← skipChar mv.2 '-'
  let dv ← getnum v true
  let v ← skipChar dv.2 'T'
  return ((year, mv.1, dv.1), v)

/-- The chunks `15:04:05` of the layout with their range tests, and the
fractional second that may follow the seconds field. -/
def parseClockChunks (v : List Char) : Option ((Nat × Nat × Nat × Nat) × List Char) := do
  let hv ← getnumRange v false 0 24
  let v ← skipChar hv.2 ':'
  let mv ← getnumRange v true 0 60
  let v ← skipChar mv.2 ':'
  let sv ← getnumRange v true 0 60
  let fv ← parseFraction sv.2
  return ((hv.1, mv.1, sv.1, fv.1), fv.2)

/-- Go `time.Parse(time.RFC3339, value)`; `none` stands for a non-nil error. -/
def timeParse (value : String) : Option Time := do
  let dv ← parseDateChunks value.data
  let cv ← parseClockChunks dv.2
  let zv ← parseZone cv.2
  -- extra text after the last chunk
  failIf (!zv.2.isEmpty)
  -- day out of range
  failIf (decide (dv.1.2.2 < 1) || decide (daysIn dv.1.2.1 dv.1.1 < dv.1.2.2))
  return dateUTC dv.1.1 dv.1.2.1 dv.1.2.2 cv.1.1 cv.1.2.1 cv.1.2.2.1 cv.1.2.2.2 zv.1

/-! ## `float64` arithmetic

Round-to-nearest, ties-to-even, on a 53-bit significand.  The exponent range
is not modelled: every magnitude the program computes is zero or lies between
`2^-30` and `2^34`, far from underflow and overflow. -/

/-- A finite `float64`: the sign bit and the magnitude `man * 2 ^ exp`. -/
structure F64 where
  neg : Bool
  man : Nat
  exp : Int
  deriving DecidableEq, Repr

/-- Numerator of the magnitude of `x` as a fraction `num / den`. -/
def F64.num (x : F64) : Nat :=
  x.man * 2 ^ x.exp.toNat

/-- Denominator of the magnitude of `x` as a fraction `num / den`. -/
def F64.den (x : F64) : Nat :=
  2 ^ (-x.exp).toNat

/-- Worker of `ilog2`, recursive on a bound for the number of halvings. -/
def ilog2Aux : Nat → Nat → Nat
  | 0, _ => 0
  | fuel + 1, n => if n < 2 then 0 else ilog2Aux fuel (n / 2) + 1

/-- The position of the highest set bit of `n`: `2 ^ ilog2 n ≤ n < 2 ^ (ilog2 n + 1)`
for `n > 0`. -/
def ilog2 (n : Nat) : Nat :=
  ilog2Aux n n

/-- The binary exponent of the positive rational `p / q`: the `b` with
`2^b ≤ p / q < 2^(b+1)`. -/
def binade (p q : Nat) : Int :=
  let k : Int := (ilog2 p : Int) - (ilog2 q : Int)
  if q * 2 ^ k.toNat ≤ p * 2 ^ (-k).toNat then k else k - 1

/-- The integer nearest to `n / d`, ties to even. -/
def roundHalfEven (n d : Nat) : Nat :=
  let m := n / d
  let r := n % d
  if d < 2 * r ∨ (2 * r = d ∧ m % 2 = 1) then m + 1 else m

/-- The nearest `float64` magnitude to the rational `p / q` (`q > 0`), ties
to even: the significand and the exponent.  For `p > 0` the exponent `e` is
the one with `2^52 ≤ p / (q * 2^e) < 2^53`. -/
def roundNearestEven (p q : Nat) : Nat × Int :=
  if p = 0 then (0, 0)
  else
    let e : Int := binade p q - 52
    (roundHalfEven (p * 2 ^ (-e).toNat) (q * 2 ^ e.toNat), e)

/-- The conversion `float64(n)` of an integer. -/
def F64.ofInt (n : Int) : F64 :=
  let me := roundNearestEven n.natAbs 1
  ⟨decide (n < 0), me.1, me.2⟩

/-- The quotient `x / y` of two `float64` values, `y` non-zero. -/
def F64.div (x y : F64) : F64 :=
  let me := roundNearestEven (x.num * y.den) (x.den * y.num)
  ⟨xor x.neg y.neg, me.1, me.2⟩

/-- The numerator of `x` with its sign. -/
def F64.signedNum (x : F64) : Int :=
  if x.neg then -(x.num : Int) else (x.num : Int)

/-- The sum `x + y` of two `float64` values; an exact zero is `-0` only when
both operands are negative (that is, both are `-0`). -/
def F64.add (x y : F64) : F64 :=
  let s : Int := x.signedNum * (y.den : Int) + y.signedNum * (x.den : Int)
  if s = 0 then ⟨x.neg && y.neg, 0, 0⟩
  else
    let me := roundNearestEven s.natAbs (x.den * y.den)
    ⟨decide (s < 0), me.1, me.2⟩

/-- Go `math.Round(x)`: the nearest integer, halves away from zero, with the
sign of `x` (so a negative `x` above `-0.5` gives `-0`). -/
def mathRound (x : F64) : F64 :=
  ⟨x.neg, (2 * x.num + x.den) / (2 * x.den), 0⟩

/-- Go `fmt.Sprintf("%.0f", x)`: the sign, then the decimal digits of the
magnitude rounded to an integer (the exact value, ties to even). -/
def sprintf0f (x : F64) : String :=
  (if x.neg then "-" else "") ++ toString (roundHalfEven x.num x.den)

/-! ## `time.Time.Sub` and `time.Duration.Seconds` -/

/-- Go `minDuration`, the least `int64`. -/
def minDuration : Int := -(2 ^ 63)

/-- Go `maxDuration`, the greatest `int64`. -/
def maxDuration : Int := 2 ^ 63 - 1

/-- Go `t.Sub(u)` for times without a monotonic reading: the difference
`t - u` in nanoseconds, and `maxDuration` or `minDuration` when the difference
does not fit a `Duration`. -/
def timeSub (t u : Time) : Int :=
  let d : Int := (t.sec - u.sec) * 1000000000 + ((t.nsec : Int) - (u.nsec : Int))
  if d < minDuration then minDuration
  else if maxDuration < d then maxDuration
  else d

/-- Go `d.Seconds()`: `float64(d / Second) + float64(d % Second) / 1e9`, with
the truncating division and remainder of `int64`. -/
def durationSeconds (d : Int) : F64 :=
  F64.add (F64.ofInt (d.tdiv 1000000000))
    (F64.div (F64.ofInt (d.tmod 1000000000)) (F64.ofInt 1000000000))

/-- The expression `math.Round(t.Sub(u).Seconds())` of lines 118 and 129. -/
def roundedSeconds (t u : Time) : F64 :=
  mathRound (durationSeconds (timeSub t u))

/-! ## The record loop of `main` (lines 87-155) -/

/-- A diagnostic printed by one of the `fmt.Printf` calls of the loop; the
argument is the text that failed to decode or to parse. -/
inductive Diag where
  | decodeItem (err : String)
  | parseCreateTime (value : String)
  | parseStateTime (value : String)
  | parseRunningTime (value : String)
  deriving DecidableEq, Repr

/-- The zero value `+0` of `var runTime float64`. -/
def F64.zero : F64 := ⟨false, 0, 0⟩

/-- Lines 121-132: the scan of `stateHistory`.  The result is the final value
of `runTime` and the diagnostics printed on the way. -/
def runTimeLoop (stateTime : Time) : List StateHistoryEntry → F64 × List Diag
  | [] => (F64.zero, [])
  | history :: rest =>
    if history.State = "RUNNING" then
      match timeParse history.StateStartTime with
      | none =>
        let r := runTimeLoop stateTime rest
        (r.1, Diag.parseRunningTime history.StateStartTime :: r.2)
      | some runningTime => (roundedSeconds stateTime runningTime, [])
    else runTimeLoop stateTime rest

/-- The condition of line 95: some required field is the empty string. -/
def missingRequired (item : InputData) : Prop :=
  item.BatchType = "" ∨ item.CreateTime = "" ∨ item.Creator = "" ∨
    item.LabelsLocation = "" ∨ item.State = ""

instance (item : InputData) : Decidable (missingRequired item) := by
  unfold missingRequired
  exact inferInstance

/-- What one iteration of the loop does with a decoded item: the diagnostics
it prints and the line it writes, if any. -/
structure ItemResult where
  diags : List Diag
  line : Option OutputData
  deriving DecidableEq, Repr

/-- Lines 95-154: one iteration of the loop body after a successful decode. -/
def processItem (item : InputData) : ItemResult :=
  if missingRequired item then ⟨[], none⟩
  else
    let sanitizedProperties := sanitizeProperties item.Properties
    match timeParse item.CreateTime with
    | none => ⟨[Diag.parseCreateTime item.CreateTime], none⟩
    | some createTime =>
      match timeParse item.StateTime with
      | none => ⟨[Diag.parseStateTime item.StateTime], none⟩
      | some stateTime =>
        let elapsedTime := roundedSeconds stateTime createTime
        let runTime := runTimeLoop stateTime item.StateHistory
        ⟨runTime.2,
          some
            { BatchType := item.BatchType
              CreateTime := item.CreateTime
              Creator := item.Creator
              GoogDataprocLocation := item.LabelsLocation
              Properties := sanitizedProperties
              State := item.State
              AcceleratorType := item.Usage.AcceleratorType
              MilliDcuSeconds := item.Usage.MilliDcuSeconds
              ShuffleStorageGbSeconds := item.Usage.ShuffleStorageGbSeconds
              ElapsedTime := sprintf0f elapsedTime
              RunTime := sprintf0f runTime.1 }⟩

/-- The observable effect of the loop: the lines written to the output file
and the diagnostics printed, each in order. -/
structure RunResult where
  lines : List OutputData
  diags : List Diag
  deriving DecidableEq, Repr

/-- Lines 87-155: the loop over the array elements.  The argument lists the
outcome of `decoder.Decode` for each element for which `decoder.More()` held:
the decoded item, or the decode error, after which `main` returns. -/
def processStream : List (Except String InputData) → RunResult
  | [] => ⟨[], []⟩
  | Except.error err :: _ => ⟨[], [Diag.decodeItem err]⟩
  | Except.ok item :: rest =>
    let r := processItem item
    let o := processStream rest
    ⟨r.line.toList ++ o.lines, r.diags ++ o.diags⟩

/-- The loop run on an array all of whose elements decode. -/
def processAll (items : List InputData) : RunResult :=
  processStream (items.map Except.ok)


/-! ## Specification-side notions used to state the properties -/

/-- A record is valid when no required field is empty and both `createTime`
and `stateTime` parse as RFC3339 timestamps. -/
def validRecord (item : InputData) : Prop :=
  ¬ missingRequired item ∧ (timeParse item.CreateTime).isSome = true ∧
    (timeParse item.StateTime).isSome = true

instance (item : InputData) : Decidable (validRecord item) := by
  unfold validRecord
  exact inferInstance

/-- The character-wise description of key sanitisation: `:` and `.` become
`_`, every other character is kept. -/
def sanitizeChar (c : Char) : Char :=
  if c = ':' ∨ c = '.' then '_' else c

/-- The start of the run according to the scan of `stateHistory`: the parsed
`stateStartTime` of the first entry whose state is `"RUNNING"` and whose
`stateStartTime` parses. -/
def firstRunningStart (history : List StateHistoryEntry) : Option Time :=
  history.findSome? (fun h => if h.State = "RUNNING" then timeParse h.StateStartTime else none)

/-- The `RUNNING` entries with an unparseable timestamp that the scan meets
before it stops at the first `RUNNING` entry with a parseable one. -/
def unparsedRunning (history : List StateHistoryEntry) : List StateHistoryEntry :=
  (history.takeWhile
      (fun h => !(decide (h.State = "RUNNING") && (timeParse h.StateStartTime).isSome))).filter
    (fun h => decide (h.State = "RUNNING"))

/-- A record with the given timestamps and state history, all required fields
present, used for the worked examples. -/
def sampleItem (createTime stateTime : String) (history : List StateHistoryEntry) : InputData :=
  { BatchType := "SPARK"
    CreateTime := createTime
    Creator := "user@example.com"
    LabelsLocation := "us-central1"
    Properties := [("spark:executor.memory", "4g"), ("a.b:c", "1")]
    State := "SUCCEEDED"
    StateTime := stateTime
    StateHistory := history
    Usage := ⟨"", "1000", "20"⟩ }

/-- The magnitude of a `float64` as a rational number. -/
def F64.val (x : F64) : ℚ :=
  (x.man : ℚ) * (2 : ℚ) ^ x.exp

/-- The rational value of the significand-exponent pair computed by
`roundNearestEven`. -/
def rneVal (p q : Nat) : ℚ :=
  ((roundNearestEven p q).1 : ℚ) * (2 : ℚ) ^ (roundNearestEven p q).2

/-- The fractional part `float64(nsec) / 1e9` of `Seconds`. -/
def fracF (n : Nat) : F64 :=
  F64.div (F64.ofInt (n : Int)) (F64.ofInt 1000000000)

/-- The rounded magnitude, in seconds, of a duration of `a` nanoseconds. -/
def secondsMag (a : Nat) : Nat :=
  (mathRound (durationSeconds (a : Int))).man

/-- The exact difference `t - u` in nanoseconds. -/
def nanosBetween (t u : Time) : Int :=
  (t.sec - u.sec) * 1000000000 + ((t.nsec : Int) - (u.nsec : Int))

/-- The magnitude of a difference of `d` nanoseconds rounded to whole seconds,
halves rounded up. -/
def roundedMagnitude (d : Int) : Nat :=
  (d.natAbs + 500000000) / 1000000000

/-- The integer nearest to a difference of `d` nanoseconds measured in
seconds, halves rounded away from zero. -/
def nearestSecond (d : Int) : Int :=
  if d < 0 then -(roundedMagnitude d : Int) else (roundedMagnitude d : Int)

/-- The reading of C2 on one record: `elapsed_time` is the decimal string of
the integer nearest to `stateTime - createTime` in seconds. -/
def elapsedIsNearest (item : InputData) : Prop :=
  ∀ (out : OutputData) (c s : Time), (processItem item).line = some out →
    timeParse item.CreateTime = some c → timeParse item.StateTime = some s →
    out.ElapsedTime = toString (nearestSecond (nanosBetween s c))

/-- A string that reads as a negative number: a minus sign followed by
decimal digits that are not all zero. -/
def negativeNumberString (str : String) : Prop :=
  match str.data with
  | '-' :: ds => ds.all isDigitChar = true ∧ ds.any (fun c => c != '0') = true
  | _ => False

instance (str : String) : Decidable (negativeNumberString str) := by
  unfold negativeNumberString
  split <;> exact inferInstance

/-- The reading of C7 on one record: when `stateTime` is earlier than
`createTime`, `elapsed_time` reads as a negative number. -/
def elapsedIsNegative (item : InputData) : Prop :=
  ∀ (out : OutputData) (c s : Time), (processItem item).line = some out →
    timeParse item.CreateTime = some c → timeParse item.StateTime = some s →
    nanosBetween s c < 0 → negativeNumberString out.ElapsedTime

/-! ## `main` around the loop (lines 53-85 and 157-161) -/

/-- How `FlagSet.parseOne` reads one command-line argument: it is not a flag
(or is `--`), so parsing ends; or it has bad flag syntax; or it is a flag name
with the value given after `=`, if any. -/
inductive FlagArg where
  | stop
  | bad
  | named (name : String) (value : Option String)
  deriving DecidableEq, Repr

/-- The head of Go `FlagSet.parseOne`: an argument shorter than two bytes or
not starting with `-` is not a flag, `--` ends the flags, one or two leading
minus signs are dropped, a name that is empty or starts with `-` or `=` is bad
syntax, and the name is cut at the first `=` after its first byte. -/
def classifyArg (s : String) : FlagArg :=
  match s.data with
  | '-' :: c :: cs =>
    if c = '-' ∧ cs = [] then FlagArg.stop
    else
      match (if c = '-' then cs else c :: cs) with
      | [] => FlagArg.bad
      | n0 :: tail =>
        if n0 = '-' ∨ n0 = '=' then FlagArg.bad
        else
          let pre := tail.takeWhile (fun x => x != '=')
          if pre.length < tail.length then
            FlagArg.named ⟨n0 :: pre⟩ (some ⟨tail.drop (pre.length + 1)⟩)
          else FlagArg.named ⟨n0 :: tail⟩ none
  | _ => FlagArg.stop

/-- The outcome of `flag.Parse()` (line 56) under the default `ExitOnError`
handling: `os.Exit(0)` after `-h` or `-help`, `os.Exit(2)` after any other
parse error, or the values of the two string flags. -/
inductive FlagOutcome where
  | exitHelp
  | exitError
  | parsed (inputFile outputFile : String)
  deriving DecidableEq, Repr

/-- Go `flag.Parse()` over `os.Args[1:]` for the two string flags `input` and
`output` (lines 54-56), started from the current flag values: each flag takes
its value from `=value` or from the next argument; a flag that is not defined
is the help request when it is `h` or `help` and an error otherwise; a flag
without a value is an error. -/
def flagParse : List String → String → String → FlagOutcome
  | [], input, output => FlagOutcome.parsed input output
  | s :: rest, input, output =>
    match classifyArg s with
    | FlagArg.stop => FlagOutcome.parsed input output
    | FlagArg.bad => FlagOutcome.exitError
    | FlagArg.named name value =>
      if name = "input" ∨ name = "output" then
        match value, rest with
        | some v, r =>
          flagParse r (if name = "input" then v else input)
            (if name = "input" then output else v)
        | none, v :: r =>
          flagParse r (if name = "input" then v else input)
            (if name = "input" then output else v)
        | none, [] => FlagOutcome.exitError
      else if name = "help" ∨ name = "h" then FlagOutcome.exitHelp
      else FlagOutcome.exitError

/-- What `main` meets: the command-line arguments `os.Args[1:]`, the error (if
any) of `os.Open`, of `os.Create` and of reading the first token, the outcomes
of the `Decode` calls, and the error other than `io.EOF` (if any) of reading
the closing token.  Line 80 only tests the error of `decoder.Token()`, so any
first token is accepted as the opening one. -/
structure Env where
  args : List String
  openErr : Option String
  createErr : Option String
  openTokenErr : Option String
  stream : List (Except String InputData)
  closeTokenErr : Option String

/-- A message printed by `main` or by package `flag`: the help text, a flag
error, the usage message of line 59, the error of `os.Open`, of `os.Create`, of
the opening token, a diagnostic of the loop, or the error of the closing
token. -/
inductive Printed where
  | flagHelp
  | flagError
  | usage
  | openInput (err : String)
  | createOutput (err : String)
  | openingBracket (err : String)
  | record (d : Diag)
  | closingBracket (err : String)
  deriving DecidableEq, Repr

/-- The observable result of the process: its exit status, the lines written
to the output file and the messages printed. -/
structure MainResult where
  exitCode : Nat
  lines : List OutputData
  printed : List Printed
  deriving DecidableEq, Repr

/-- Whether the loop leaves `main` through the `return` of line 92, that is,
whether some `Decode` call fails. -/
def decodeFails : List (Except String InputData) → Bool
  | [] => false
  | Except.error _ :: _ => true
  | Except.ok _ :: rest => decodeFails rest

/-- Lines 63-161 of `main`, after the flags are read and both are non-empty:
on every error the message is printed and `main` returns, which ends the
process with status 0. -/
def runFiles (env : Env) : MainResult :=
  match env.openErr with
  | some err => ⟨0, [], [Printed.openInput err]⟩
  | none =>
    match env.createErr with
    | some err => ⟨0, [], [Printed.createOutput err]⟩
    | none =>
      match env.openTokenErr with
      | some err => ⟨0, [], [Printed.openingBracket err]⟩
      | none =>
        let r := processStream env.stream
        if decodeFails env.stream then ⟨0, r.lines, r.diags.map Printed.record⟩
        else
          match env.closeTokenErr with
          | some err =>
            ⟨0, r.lines, r.diags.map Printed.record ++ [Printed.closingBracket err]⟩
          | none => ⟨0, r.lines, r.diags.map Printed.record⟩

/-- The function `main`: `flag.Parse()` may end the process with status 0
(help) or 2 (flag error); an empty `input` or `output` flag ends it with
`os.Exit(1)` (lines 58-61); otherwise `runFiles`. -/
def runMain (env : Env) : MainResult :=
  match flagParse env.args "" "" with
  | FlagOutcome.exitHelp => ⟨0, [], [Printed.flagHelp]⟩
  | FlagOutcome.exitError => ⟨2, [], [Printed.flagError]⟩
  | FlagOutcome.parsed inputFile outputFile =>
    if inputFile = "" ∨ outputFile = "" then ⟨1, [], [Printed.usage]⟩
    else runFiles env

/-- A required flag is missing: the command line is accepted by `flag.Parse`
and leaves `input` or `output` empty. -/
def requiredFlagMissing (env : Env) : Prop :=
  match flagParse env.args "" "" with
  | FlagOutcome.parsed inputFile outputFile => inputFile = "" ∨ outputFile = ""
  | _ => False

instance (env : Env) : Decidable (requiredFlagMissing env) := by
  unfold requiredFlagMissing
  split <;> exact inferInstance

/-- The reading of C11 on one run: the exit status is non-zero exactly when a
required flag is missing or the input or output file cannot be opened. -/
def exitReflectsSetup (env : Env) : Prop :=
  (runMain env).exitCode ≠ 0 ↔
    (requiredFlagMissing env ∨ env.openErr.isSome = true ∨ env.createErr.isSome = true)

instance (env : Env) : Decidable (exitReflectsSetup env) := by
  unfold exitReflectsSetup
  exact inferInstance

/-- An environment with the given command line in which nothing fails, over
the given array. -/
def sampleEnv (args : List String) (stream : List (Except String InputData)) : Env :=
  { args := args
    openErr := none
    createErr := none
    openTokenErr := none
    stream := stream
    closeTokenErr := none }

/-- The reading of C3 on one record: `run_time` is the decimal string of the
integer nearest to the seconds from the first parseable `RUNNING` start to
`stateTime`. -/
def runTimeIsNearest (item : InputData) : Prop :=
  ∀ (out : OutputData) (s t : Time), (processItem item).line = some out →
    timeParse item.StateTime = some s → firstRunningStart item.StateHistory = some t →
    out.RunTime = toString (nearestSecond (nanosBetween s t))

/-! ## The integer returned by the rounding -/

/-- The integer that `math.Round(t.Sub(u).Seconds())` denotes (the result has
exponent 0; `-0` denotes 0). -/
def roundedSecondsInt (t u : Time) : Int :=
  if (roundedSeconds t u).neg then -((roundedSeconds t u).man : Int)
  else ((roundedSeconds t u).man : Int)

/-- The reading of the first part of C18 on one pair of instants: the rounded
result is within half a second of the exact difference (both in nanoseconds). -/
def roundingWithinHalf (t u : Time) : Prop :=
  |roundedSecondsInt t u * 1000000000 - nanosBetween t u| ≤ 500000000

instance (t u : Time) : Decidable (roundingWithinHalf t u) := by
  unfold roundingWithinHalf
  exact inferInstance

/-! ## Properties of the record loop -/

set_option maxRecDepth 8000

theorem processStream_ok (item : InputData) (rest : List (Except String InputData)) :
    processStream (Except.ok item :: rest) =
      ⟨(processItem item).line.toList ++ (processStream rest).lines,
        (processItem item).diags ++ (processStream rest).diags⟩ := rfl

theorem lines_skip (pre post : List (Except String InputData)) (item : InputData)
    (h : (processItem item).line = none) :
    (processStream (pre ++ Except.ok item :: post)).lines = (processStream (pre ++ post)).lines := by
  induction pre with
  | nil => simp [processStream_ok, h]
  | cons x pre ih =>
    cases x with
    | error e => simp [processStream]
    | ok i => simp [processStream_ok, ih]

theorem processItem_missing (item : InputData) (h : missingRequired item) :
    processItem item = ⟨[], none⟩ := by
  simp [processItem, h]

theorem processItem_valid (item : InputData) (h : ¬ missingRequired item) (c s : Time)
    (hc : timeParse item.CreateTime = some c) (hs : timeParse item.StateTime = some s) :
    processItem item =
      ⟨(runTimeLoop s item.StateHistory).2,
        some
          { BatchType := item.BatchType
            CreateTime := item.CreateTime
            Creator := item.Creator
            GoogDataprocLocation := item.LabelsLocation
            Properties := sanitizeProperties item.Properties
            State := item.State
            AcceleratorType := item.Usage.AcceleratorType
            MilliDcuSeconds := item.Usage.MilliDcuSeconds
            ShuffleStorageGbSeconds := item.Usage.ShuffleStorageGbSeconds
            ElapsedTime := sprintf0f (roundedSeconds s c)
            RunTime := sprintf0f (runTimeLoop s item.StateHistory).1 }⟩ := by
  simp [processItem, h, hc, hs]

theorem line_isSome_iff (item : InputData) :
    (processItem item).line.isSome = true ↔ validRecord item := by
  unfold validRecord
  by_cases h : missingRequired item
  · simp [processItem, h]
  · cases hc : timeParse item.CreateTime with
    | none => simp [processItem, h, hc]
    | some c =>
      cases hs : timeParse item.StateTime with
      | none => simp [processItem, h, hc, hs]
      | some s => simp [processItem, h, hc, hs]

/-- An emitted line comes from a record that passes the required-field check
and whose `createTime` and `stateTime` parse. -/
theorem line_some_inv (item : InputData) (out : OutputData)
    (h : (processItem item).line = some out) :
    ¬ missingRequired item ∧ ∃ c s, timeParse item.CreateTime = some c ∧
      timeParse item.StateTime = some s := by
  have hv : validRecord item := (line_isSome_iff item).1 (by simp [h])
  obtain ⟨h1, h2, h3⟩ := hv
  refine ⟨h1, ?_⟩
  cases hc : timeParse item.CreateTime with
  | none => simp [hc] at h2
  | some c =>
    cases hs : timeParse item.StateTime with
    | none => simp [hs] at h3
    | some s => exact ⟨c, s, rfl, rfl⟩

theorem processAll_lines (items : List InputData) :
    (processAll items).lines = items.filterMap (fun i => (processItem i).line) := by
  unfold processAll
  induction items with
  | nil => rfl
  | cons i items ih =>
    simp only [List.map_cons, processStream_ok, ih]
    cases h : (processItem i).line <;> simp [List.filterMap_cons, h]

/-- C1. Field-presence filter: on an array whose elements all decode, an
element with an empty (or absent, hence decoded as empty) `batchType`,
`createTime`, `creator`, location label or `state` writes no line, and the
lines of the run are those of the array without that element. -/
theorem missing_required_filtered (pre post : List InputData) (item : InputData)
    (h : missingRequired item) :
    (processItem item).line = none ∧
      (processAll (pre ++ item :: post)).lines = (processAll (pre ++ post)).lines := by
  have hl : (processItem item).line = none := by rw [processItem_missing item h]
  refine ⟨hl, ?_⟩
  unfold processAll
  simpa using lines_skip (pre.map Except.ok) (post.map Except.ok) item hl

theorem missing_required_filtered_witness :
    missingRequired (sampleItem "" "2024-01-01T00:05:30Z" []) ∧
      ((processItem (sampleItem "" "2024-01-01T00:05:30Z" [])).line = none ∧
        (processAll ([sampleItem "2024-01-01T00:00:00Z" "2024-01-01T00:05:30Z" []] ++
            sampleItem "" "2024-01-01T00:05:30Z" [] ::
              [sampleItem "2024-01-01T00:00:00Z" "2024-01-01T00:00:30Z" []])).lines =
          (processAll ([sampleItem "2024-01-01T00:00:00Z" "2024-01-01T00:05:30Z" []] ++
            [sampleItem "2024-01-01T00:00:00Z" "2024-01-01T00:00:30Z" []])).lines) :=
  ⟨by decide, missing_required_filtered _ _ _ (by decide)⟩

/-- C6. On an array whose elements all decode, the lines written are exactly
the lines of the valid records (required fields present, `createTime` and
`stateTime` parseable), at most one per record and in input order; an array
of valid records only gives as many lines as it has records. -/
theorem lines_are_valid_records (items : List InputData) :
    (processAll items).lines = items.filterMap (fun i => (processItem i).line) ∧
      (∀ i, (processItem i).line.isSome = true ↔ validRecord i) ∧
      (processAll items).lines.length = (items.filter (fun i => decide (validRecord i))).length ∧
      ((∀ i ∈ items, validRecord i) → (processAll items).lines.length = items.length) := by
  have hlen : (processAll items).lines.length
      = (items.filter (fun i => decide (validRecord i))).length := by
    rw [processAll_lines]
    induction items with
    | nil => rfl
    | cons i items ih =>
      by_cases hv : validRecord i
      · have := (line_isSome_iff i).2 hv
        obtain ⟨o, ho⟩ := Option.isSome_iff_exists.1 this
        simp [List.filterMap_cons, ho, hv, ih]
      · have : (processItem i).line = none := by
          cases hl : (processItem i).line with
          | none => rfl
          | some o => exact absurd ((line_isSome_iff i).1 (by simp [hl])) hv
        simp [List.filterMap_cons, this, hv, ih]
  refine ⟨processAll_lines items, line_isSome_iff, hlen, ?_⟩
  intro hall
  rw [hlen, List.filter_eq_self.2]
  intro i hi
  simpa using hall i hi

theorem lines_are_valid_records_witness :
    (∀ i ∈ [sampleItem "2024-01-01T00:00:00Z" "2024-01-01T00:05:30Z" [],
        sampleItem "2024-01-01T00:00:00Z" "2024-01-01T00:00:30Z" []], validRecord i) ∧
      (processAll [sampleItem "2024-01-01T00:00:00Z" "2024-01-01T00:05:30Z" [],
        sampleItem "2024-01-01T00:00:00Z" "2024-01-01T00:00:30Z" []]).lines.length = 2 :=
  ⟨by decide, (lines_are_valid_records _).2.2.2 (by decide)⟩

/-- C8. A record that passes the required-field check but whose `createTime`
or `stateTime` does not parse prints one diagnostic and writes no line, and the
loop goes on: the rest of the stream is processed as it would be without the
record, so the lines of the run are those of the run without it. -/
theorem bad_timestamp_skipped (bad : InputData) (h : ¬ missingRequired bad)
    (hbad : timeParse bad.CreateTime = none ∨ timeParse bad.StateTime = none) :
    (processItem bad).line = none ∧
      (processItem bad).diags =
        [if timeParse bad.CreateTime = none then Diag.parseCreateTime bad.CreateTime
          else Diag.parseStateTime bad.StateTime] ∧
      (∀ post, processStream (Except.ok bad :: post) =
        ⟨(processStream post).lines, (processItem bad).diags ++ (processStream post).diags⟩) ∧
      ∀ pre post, (processStream (pre ++ Except.ok bad :: post)).lines =
        (processStream (pre ++ post)).lines := by
  have hres : processItem bad =
      ⟨[if timeParse bad.CreateTime = none then Diag.parseCreateTime bad.CreateTime
          else Diag.parseStateTime bad.StateTime], none⟩ := by
    cases hc : timeParse bad.CreateTime with
    | none => simp [processItem, h, hc]
    | some c =>
      cases hs : timeParse bad.StateTime with
      | none => simp [processItem, h, hc, hs]
      | some s => simp [hc, hs] at hbad
  have hl : (processItem bad).line = none := by rw [hres]
  refine ⟨hl, by rw [hres], ?_, fun pre post => lines_skip pre post bad hl⟩
  intro post
  rw [processStream_ok, hl]
  rfl

theorem bad_timestamp_skipped_witness :
    ¬ missingRequired (sampleItem "yesterday" "2024-01-01T00:05:30Z" []) ∧
      (timeParse (sampleItem "yesterday" "2024-01-01T00:05:30Z" []).CreateTime = none ∨
        timeParse (sampleItem "yesterday" "2024-01-01T00:05:30Z" []).StateTime = none) ∧
      (processItem (sampleItem "yesterday" "2024-01-01T00:05:30Z" [])).line = none :=
  ⟨by decide, by decide,
    (bad_timestamp_skipped (sampleItem "yesterday" "2024-01-01T00:05:30Z" []) (by decide)
      (by decide)).1⟩

/-- C9. When decoding the element after `pre` fails, the run stops there: its
lines are exactly the lines of the elements before it, the decode diagnostic is
the last thing printed, and nothing that follows in the array has any effect. -/
theorem decode_failure_stops (pre : List InputData) (err : String)
    (post : List (Except String InputData)) :
    processStream (pre.map Except.ok ++ Except.error err :: post) =
      ⟨pre.filterMap (fun i => (processItem i).line),
        pre.flatMap (fun i => (processItem i).diags) ++ [Diag.decodeItem err]⟩ := by
  induction pre with
  | nil => rfl
  | cons i pre ih =>
    simp only [List.map_cons, List.cons_append, processStream_ok, ih]
    cases h : (processItem i).line <;> simp [List.filterMap_cons, h]

/-- C10. Every written record is a flattened projection of its input record:
the five identifying fields and the three usage fields are copied verbatim
(an absent usage field is decoded as, and copied as, the empty string). -/
theorem output_is_projection (item : InputData) (out : OutputData)
    (h : (processItem item).line = some out) :
    out.BatchType = item.BatchType ∧ out.CreateTime = item.CreateTime ∧
      out.Creator = item.Creator ∧ out.GoogDataprocLocation = item.LabelsLocation ∧
      out.State = item.State ∧ out.AcceleratorType = item.Usage.AcceleratorType ∧
      out.MilliDcuSeconds = item.Usage.MilliDcuSeconds ∧
      out.ShuffleStorageGbSeconds = item.Usage.ShuffleStorageGbSeconds := by
  obtain ⟨hm, c, s, hc, hs⟩ := line_some_inv item out h
  rw [processItem_valid item hm c s hc hs] at h
  simp only [Option.some.injEq] at h
  subst h
  simp

theorem output_is_projection_witness :
    (processItem (sampleItem "2024-01-01T00:00:00Z" "2024-01-01T00:05:30Z" [])).line =
        some ⟨"SPARK", "2024-01-01T00:00:00Z", "user@example.com", "us-central1",
          [("spark_executor_memory", "4g"), ("a_b_c", "1")], "SUCCEEDED", "", "1000", "20",
          "330", "0"⟩ ∧
      ("" : String) =
        (sampleItem "2024-01-01T00:00:00Z" "2024-01-01T00:05:30Z" []).Usage.AcceleratorType :=
  ⟨by decide,
    (output_is_projection (sampleItem "2024-01-01T00:00:00Z" "2024-01-01T00:05:30Z" [])
      ⟨"SPARK", "2024-01-01T00:00:00Z", "user@example.com", "us-central1",
        [("spark_executor_memory", "4g"), ("a_b_c", "1")], "SUCCEEDED", "", "1000", "20",
        "330", "0"⟩ (by decide)).2.2.2.2.2.1⟩

/-! ## Key sanitisation -/

theorem replaceAllAux_single (a b : Char) (s : List Char) :
    replaceAllAux [a] [b] 0 s = s.map (fun c => if c = a then b else c) := by
  induction s with
  | nil => rfl
  | cons c cs ih =>
    by_cases h : c = a
    · subst h
      simp [replaceAllAux, List.isPrefixOf, ih]
    · have h' : ¬ a = c := fun e => h e.symm
      simp [replaceAllAux, List.isPrefixOf, ih, h, h']

theorem sanitizeKey_data (key : String) :
    (sanitizeKey key).data = key.data.map sanitizeChar := by
  have h1 : (":" : String).data = [':'] := rfl
  have h2 : ("." : String).data = ['.'] := rfl
  have h3 : ("_" : String).data = ['_'] := rfl
  simp only [sanitizeKey, replaceAll, h1, h2, h3, List.cons_ne_nil, if_false,
    replaceAllAux_single, List.map_map]
  apply List.map_congr_left
  intro c _
  by_cases hc : c = ':'
  · subst hc
    simp [sanitizeChar]
  · by_cases hd : c = '.'
    · subst hd
      simp [sanitizeChar]
    · simp [sanitizeChar, hc, hd]

theorem mapSet_of_not_mem (m : List (String × String)) (k v : String)
    (h : k ∉ m.map Prod.fst) : mapSet m k v = m ++ [(k, v)] := by
  induction m with
  | nil => rfl
  | cons e m ih =>
    obtain ⟨k', v'⟩ := e
    simp only [List.map_cons, List.mem_cons, not_or] at h
    have hne : ¬ k' = k := fun e => h.1 e.symm
    simp [mapSet, hne, ih h.2]

theorem sanitizeLoop_of_nodup (props acc : List (String × String))
    (h : (acc.map Prod.fst ++ props.map (fun kv => sanitizeKey kv.1)).Nodup) :
    sanitizeLoop props acc = acc ++ props.map (fun kv => (sanitizeKey kv.1, kv.2)) := by
  induction props generalizing acc with
  | nil => simp [sanitizeLoop]
  | cons e props ih =>
    obtain ⟨key, value⟩ := e
    have hnot : sanitizeKey key ∉ acc.map Prod.fst := by
      intro hmem
      have := (List.nodup_append.1 h).2.2
      exact this hmem (by simp)
    have hnd : ((acc ++ [(sanitizeKey key, value)]).map Prod.fst
        ++ props.map (fun kv => sanitizeKey kv.1)).Nodup := by
      simpa [List.append_assoc] using h
    simp only [sanitizeLoop, mapSet_of_not_mem acc _ value hnot, ih _ hnd]
    simp

/-- C5. When the sanitised keys of a written record are pairwise distinct,
its `properties` hold exactly one entry per input property, in the same order:
the key with every `:` and `.` replaced by `_` and all other characters kept,
and the value unchanged. -/
theorem properties_sanitized (item : InputData) (out : OutputData)
    (h : (processItem item).line = some out)
    (hd : (item.Properties.map (fun kv => sanitizeKey kv.1)).Nodup) :
    out.Properties = item.Properties.map (fun kv => (sanitizeKey kv.1, kv.2)) ∧
      out.Properties.length = item.Properties.length ∧
      (∀ key : String, (sanitizeKey key).data = key.data.map sanitizeChar) ∧
      sanitizeKey "spark:executor.memory" = "spark_executor_memory" ∧
      sanitizeKey "a.b:c" = "a_b_c" := by
  obtain ⟨hm, c, s, hc, hs⟩ := line_some_inv item out h
  rw [processItem_valid item hm c s hc hs] at h
  simp only [Option.some.injEq] at h
  subst h
  have hp : sanitizeProperties item.Properties
      = item.Properties.map (fun kv => (sanitizeKey kv.1, kv.2)) := by
    unfold sanitizeProperties
    rw [sanitizeLoop_of_nodup item.Properties [] (by simpa using hd)]
    simp
  refine ⟨hp, ?_, sanitizeKey_data, by decide, by decide⟩
  show (sanitizeProperties item.Properties).length = _
  rw [hp, List.length_map]

theorem properties_sanitized_witness :
    ((sampleItem "2024-01-01T00:00:00Z" "2024-01-01T00:05:30Z" []).Properties.map
        (fun kv => sanitizeKey kv.1)).Nodup ∧
      [("spark_executor_memory", "4g"), ("a_b_c", "1")] =
        (sampleItem "2024-01-01T00:00:00Z" "2024-01-01T00:05:30Z" []).Properties.map
          (fun kv => (sanitizeKey kv.1, kv.2)) :=
  ⟨by decide,
    (properties_sanitized (sampleItem "2024-01-01T00:00:00Z" "2024-01-01T00:05:30Z" [])
      ⟨"SPARK", "2024-01-01T00:00:00Z", "user@example.com", "us-central1",
        [("spark_executor_memory", "4g"), ("a_b_c", "1")], "SUCCEEDED", "", "1000", "20",
        "330", "0"⟩ (by decide) (by decide)).1⟩

/-! ## The `stateHistory` scan -/

theorem runTimeLoop_fst (s : Time) (history : List StateHistoryEntry) :
    (runTimeLoop s history).1 =
      match firstRunningStart history with
      | some t => roundedSeconds s t
      | none => F64.zero := by
  induction history with
  | nil => rfl
  | cons h rest ih =>
    by_cases hr : h.State = "RUNNING"
    · cases hp : timeParse h.StateStartTime with
      | none => simp [runTimeLoop, firstRunningStart, List.findSome?, hr, hp] at ih ⊢; exact ih
      | some t => simp [runTimeLoop, firstRunningStart, List.findSome?, hr, hp]
    · simp [runTimeLoop, firstRunningStart, List.findSome?, hr] at ih ⊢; exact ih

theorem runTimeLoop_snd (s : Time) (history : List StateHistoryEntry) :
    (runTimeLoop s history).2 =
      (unparsedRunning history).map (fun h => Diag.parseRunningTime h.StateStartTime) := by
  induction history with
  | nil => rfl
  | cons h rest ih =>
    by_cases hr : h.State = "RUNNING"
    · cases hp : timeParse h.StateStartTime with
      | none =>
        simp [runTimeLoop, unparsedRunning, List.takeWhile, List.filter, hr, hp] at ih ⊢
        exact ih
      | some t => simp [runTimeLoop, unparsedRunning, List.takeWhile, hr, hp]
    · simp [runTimeLoop, unparsedRunning, List.takeWhile, List.filter, hr] at ih ⊢
      exact ih

theorem sprintf0f_zero : sprintf0f F64.zero = "0" := by decide

/-- C4, as stated, fails: a first `RUNNING` entry with an unparseable timestamp
does not force `run_time` to `"0"` when a later `RUNNING` entry parses. -/
theorem first_running_unparsed_counterexample :
    ¬ ∀ (item : InputData) (out : OutputData) (e : StateHistoryEntry),
        (processItem item).line = some out →
        item.StateHistory.find? (fun x => decide (x.State = "RUNNING")) = some e →
        timeParse e.StateStartTime = none → out.RunTime = "0" := by
  intro hall
  have := hall
    (sampleItem "2024-01-01T00:00:00Z" "2024-01-01T00:05:00Z"
      [⟨"RUNNING", "soon"⟩, ⟨"RUNNING", "2024-01-01T00:01:00Z"⟩])
    ⟨"SPARK", "2024-01-01T00:00:00Z", "user@example.com", "us-central1",
      [("spark_executor_memory", "4g"), ("a_b_c", "1")], "SUCCEEDED", "", "1000", "20",
      "300", "240"⟩ ⟨"RUNNING", "soon"⟩ (by decide) (by decide) (by decide)
  exact absurd this (by decide)

/-- C4, amended. For every written record whose history is `pre ++ e :: rest`
with no `RUNNING` entry in `pre` and `e` a `RUNNING` entry: if the timestamp of
`e` parses, `run_time` is measured from it to `stateTime`; if it does not
parse, the failure is reported and `run_time` is what the scan of `rest` alone
gives.  Without any `RUNNING` entry `run_time` is `"0"`. -/
theorem run_time_first_running (item : InputData) (out : OutputData) (s : Time)
    (h : (processItem item).line = some out) (hs : timeParse item.StateTime = some s) :
    ((∀ x ∈ item.StateHistory, x.State ≠ "RUNNING") → out.RunTime = "0") ∧
      ∀ (pre rest : List StateHistoryEntry) (e : StateHistoryEntry),
        item.StateHistory = pre ++ e :: rest → (∀ x ∈ pre, x.State ≠ "RUNNING") →
        e.State = "RUNNING" →
        (∀ t, timeParse e.StateStartTime = some t → out.RunTime = sprintf0f (roundedSeconds s t)) ∧
        (timeParse e.StateStartTime = none →
          Diag.parseRunningTime e.StateStartTime ∈ (processItem item).diags ∧
          (processItem { item with StateHistory := rest }).line.map (fun o => o.RunTime)
            = some out.RunTime) := by
  obtain ⟨hm, c, s', hc, hs'⟩ := line_some_inv item out h
  rw [hs] at hs'
  cases hs'
  have hres := processItem_valid item hm c s hc hs
  have hout : out.RunTime = sprintf0f (runTimeLoop s item.StateHistory).1 := by
    rw [hres] at h
    simp only [Option.some.injEq] at h
    subst h
    rfl
  have hskip : ∀ (pre tail : List StateHistoryEntry), (∀ x ∈ pre, x.State ≠ "RUNNING") →
      runTimeLoop s (pre ++ tail) = runTimeLoop s tail := by
    intro pre tail hpre
    induction pre with
    | nil => rfl
    | cons x pre ih =>
      have hx : ¬ x.State = "RUNNING" := hpre x (by simp)
      simp only [List.cons_append, runTimeLoop, hx, if_false]
      exact ih (fun y hy => hpre y (by simp [hy]))
  constructor
  · intro hno
    have := hskip item.StateHistory [] hno
    rw [List.append_nil] at this
    rw [hout, this]
    exact sprintf0f_zero
  · intro pre rest e hsplit hpre he
    have hloop : runTimeLoop s item.StateHistory = runTimeLoop s (e :: rest) := by
      rw [hsplit, hskip pre _ hpre]
    constructor
    · intro t ht
      rw [hout, hloop]
      simp [runTimeLoop, he, ht]
    · intro hnone
      constructor
      · rw [hres]
        show _ ∈ (runTimeLoop s item.StateHistory).2
        rw [hloop]
        simp [runTimeLoop, he, hnone]
      · have hm' : ¬ missingRequired { item with StateHistory := rest } := hm
        rw [processItem_valid _ hm' c s hc hs, hout, hloop]
        simp [runTimeLoop, he, hnone]

theorem run_time_first_running_witness :
    (processItem (sampleItem "2024-01-01T00:00:00Z" "2024-01-01T00:05:00Z"
        [⟨"RUNNING", "soon"⟩, ⟨"RUNNING", "2024-01-01T00:01:00Z"⟩])).line.map
        (fun o => o.RunTime) = some "240" ∧
      ((∀ x ∈ (sampleItem "2024-01-01T00:00:00Z" "2024-01-01T00:05:00Z"
        [⟨"RUNNING", "soon"⟩, ⟨"RUNNING", "2024-01-01T00:01:00Z"⟩]).StateHistory,
          x.State ≠ "RUNNING") → "240" = "0") :=
  ⟨by decide,
    (run_time_first_running (sampleItem "2024-01-01T00:00:00Z" "2024-01-01T00:05:00Z"
        [⟨"RUNNING", "soon"⟩, ⟨"RUNNING", "2024-01-01T00:01:00Z"⟩])
      ⟨"SPARK", "2024-01-01T00:00:00Z", "user@example.com", "us-central1",
        [("spark_executor_memory", "4g"), ("a_b_c", "1")], "SUCCEEDED", "", "1000", "20",
        "300", "240"⟩ ⟨1704067500, 0⟩ (by decide) (by decide)).1⟩

/-! ## Round-to-nearest on a 53-bit significand -/

theorem ilog2Aux_spec (fuel n : Nat) (hn : n ≠ 0) (hf : n ≤ fuel) :
    2 ^ ilog2Aux fuel n ≤ n ∧ n < 2 ^ (ilog2Aux fuel n + 1) := by
  induction fuel generalizing n with
  | zero => omega
  | succ fuel ih =>
    by_cases h2 : n < 2
    · have : n = 1 := by omega
      subst this
      simp [ilog2Aux]
    · have hih := ih (n / 2) (by omega) (by omega)
      simp only [ilog2Aux, h2, if_false]
      rw [pow_succ, pow_succ (n := ilog2Aux fuel (n / 2) + 1)]
      omega

theorem ilog2_spec (n : Nat) (hn : n ≠ 0) : 2 ^ ilog2 n ≤ n ∧ n < 2 ^ (ilog2 n + 1) :=
  ilog2Aux_spec n n hn (Nat.le_refl n)

theorem two_zpow_split (e : Int) :
    ((2 : ℚ) ^ e.toNat) / (2 : ℚ) ^ (-e).toNat = (2 : ℚ) ^ e := by
  rcases le_total 0 e with h | h
  · have h1 : (-e).toNat = 0 := by omega
    rw [h1, pow_zero, div_one, ← zpow_natCast, Int.toNat_of_nonneg h]
  · have h1 : e.toNat = 0 := by omega
    have h2 : ((-e).toNat : Int) = -e := Int.toNat_of_nonneg (by omega)
    rw [h1, pow_zero, ← zpow_natCast, h2, zpow_neg, one_div, inv_inv]

theorem roundHalfEven_nearest (n d : Nat) (hd : 0 < d) (z : Int) :
    |((roundHalfEven n d : Nat) : ℚ) - (n : ℚ) / d| ≤ |(z : ℚ) - (n : ℚ) / d| := by
  have hdq : (0 : ℚ) < d := by exact_mod_cast hd
  have hn : (n : ℚ) = (d : ℚ) * ((n / d : Nat) : ℚ) + ((n % d : Nat) : ℚ) := by
    exact_mod_cast (Nat.div_add_mod n d).symm
  have hr : (n % d : Nat) < d := Nat.mod_lt n hd
  have hrq : ((n % d : Nat) : ℚ) < d := by exact_mod_cast hr
  have hr0 : (0 : ℚ) ≤ ((n % d : Nat) : ℚ) := by positivity
  set m : Nat := n / d with hm
  set r : Nat := n % d with hrdef
  have hy : (n : ℚ) / d = m + (r : ℚ) / d := by
    rw [hn]; field_simp; ring
  have ht0 : (0 : ℚ) ≤ (r : ℚ) / d := by positivity
  have ht1 : (r : ℚ) / d < 1 := by rw [div_lt_one hdq]; exact hrq
  have hz : (z : ℚ) ≤ m ∨ (m : ℚ) + 1 ≤ z := by
    rcases le_or_lt z (m : Int) with h | h
    · left; exact_mod_cast h
    · right
      have : (m : Int) + 1 ≤ z := h
      exact_mod_cast this
  have hR : ((roundHalfEven n d : Nat) : ℚ) = m ∧ 2 * ((r : ℚ) / d) ≤ 1 ∨
      ((roundHalfEven n d : Nat) : ℚ) = m + 1 ∧ 1 ≤ 2 * ((r : ℚ) / d) := by
    unfold roundHalfEven
    simp only [← hm, ← hrdef]
    by_cases hc : d < 2 * r ∨ (2 * r = d ∧ m % 2 = 1)
    · right
      rw [if_pos hc]
      refine ⟨by push_cast; ring, ?_⟩
      have : d ≤ 2 * r := by omega
      have hq : (d : ℚ) ≤ 2 * r := by exact_mod_cast this
      rw [← mul_div_assoc, le_div_iff₀ hdq]
      linarith
    · left
      rw [if_neg hc]
      refine ⟨rfl, ?_⟩
      have : 2 * r ≤ d := by omega
      have hq : 2 * (r : ℚ) ≤ d := by exact_mod_cast this
      rw [← mul_div_assoc, div_le_iff₀ hdq]
      linarith
  rw [hy]
  rcases hR with ⟨h1, h2⟩ | ⟨h1, h2⟩ <;> rw [h1] <;>
    rcases hz with h3 | h3 <;>
    rcases abs_cases ((z : ℚ) - (m + (r : ℚ) / d)) with ⟨h4, _⟩ | ⟨h4, _⟩ <;>
    rw [h4] <;> rw [abs_le] <;> constructor <;> linarith

theorem binade_spec (p q : Nat) (hp : 0 < p) (hq : 0 < q) :
    (2 : ℚ) ^ binade p q ≤ (p : ℚ) / q ∧ (p : ℚ) / q < (2 : ℚ) ^ (binade p q + 1) := by
  obtain ⟨hp1, hp2⟩ := ilog2_spec p (by omega)
  obtain ⟨hq1, hq2⟩ := ilog2_spec q (by omega)
  have hpq : (0 : ℚ) < p := by exact_mod_cast hp
  have hqq : (0 : ℚ) < q := by exact_mod_cast hq
  have hp1q : (2 : ℚ) ^ (ilog2 p : Int) ≤ p := by
    rw [zpow_natCast]; exact_mod_cast hp1
  have hp2q : (p : ℚ) < (2 : ℚ) ^ ((ilog2 p : Int) + 1) := by
    have : (p : ℚ) < (2 : ℚ) ^ (ilog2 p + 1) := by exact_mod_cast hp2
    rw [← zpow_natCast] at this
    push_cast at this
    exact this
  have hq1q : (2 : ℚ) ^ (ilog2 q : Int) ≤ q := by
    rw [zpow_natCast]; exact_mod_cast hq1
  have hq2q : (q : ℚ) < (2 : ℚ) ^ ((ilog2 q : Int) + 1) := by
    have : (q : ℚ) < (2 : ℚ) ^ (ilog2 q + 1) := by exact_mod_cast hq2
    rw [← zpow_natCast] at this
    push_cast at this
    exact this
  have h2 : ∀ j : Int, (0 : ℚ) < (2 : ℚ) ^ j := fun j => zpow_pos (by norm_num) j
  set k : Int := (ilog2 p : Int) - (ilog2 q : Int) with hk
  have hcond : (q * 2 ^ k.toNat ≤ p * 2 ^ (-k).toNat) ↔ (2 : ℚ) ^ k ≤ (p : ℚ) / q := by
    rw [← two_zpow_split k, div_le_div_iff₀ (by positivity) hqq]
    constructor
    · intro h
      have : ((q * 2 ^ k.toNat : Nat) : ℚ) ≤ ((p * 2 ^ (-k).toNat : Nat) : ℚ) := by
        exact_mod_cast h
      push_cast at this
      linarith
    · intro h
      have : ((q * 2 ^ k.toNat : Nat) : ℚ) ≤ ((p * 2 ^ (-k).toNat : Nat) : ℚ) := by
        push_cast
        linarith
      exact_mod_cast this
  have hupper : (p : ℚ) / q < (2 : ℚ) ^ (k + 1) := by
    have e1 : (2 : ℚ) ^ (k + 1) = (2 : ℚ) ^ ((ilog2 p : Int) + 1) / (2 : ℚ) ^ (ilog2 q : Int) := by
      rw [← zpow_sub₀ (by norm_num : (2 : ℚ) ≠ 0)]
      congr 1
      rw [hk]; ring
    rw [e1, div_lt_div_iff₀ hqq (h2 _)]
    calc (p : ℚ) * (2 : ℚ) ^ (ilog2 q : Int)
        < (2 : ℚ) ^ ((ilog2 p : Int) + 1) * (2 : ℚ) ^ (ilog2 q : Int) :=
          mul_lt_mul_of_pos_right hp2q (h2 _)
      _ ≤ (2 : ℚ) ^ ((ilog2 p : Int) + 1) * q :=
          mul_le_mul_of_nonneg_left hq1q (le_of_lt (h2 _))
  have hlower : (2 : ℚ) ^ (k - 1) ≤ (p : ℚ) / q := by
    have e1 : (2 : ℚ) ^ (k - 1) = (2 : ℚ) ^ (ilog2 p : Int) / (2 : ℚ) ^ ((ilog2 q : Int) + 1) := by
      rw [← zpow_sub₀ (by norm_num : (2 : ℚ) ≠ 0)]
      congr 1
      rw [hk]; ring
    rw [e1, div_le_div_iff₀ (h2 _) hqq]
    calc (2 : ℚ) ^ (ilog2 p : Int) * q
        ≤ (2 : ℚ) ^ (ilog2 p : Int) * (2 : ℚ) ^ ((ilog2 q : Int) + 1) :=
          mul_le_mul_of_nonneg_left (le_of_lt hq2q) (le_of_lt (h2 _))
      _ ≤ p * (2 : ℚ) ^ ((ilog2 q : Int) + 1) :=
          mul_le_mul_of_nonneg_right hp1q (le_of_lt (h2 _))
  unfold binade
  simp only [← hk]
  by_cases hc : q * 2 ^ k.toNat ≤ p * 2 ^ (-k).toNat
  · rw [if_pos hc]
    exact ⟨hcond.1 hc, hupper⟩
  · rw [if_neg hc]
    refine ⟨hlower, ?_⟩
    have : ¬ (2 : ℚ) ^ k ≤ (p : ℚ) / q := fun h => hc (hcond.2 h)
    have e : k - 1 + 1 = k := by ring
    rw [e]
    exact lt_of_not_le this

theorem two_zpow_pos (j : Int) : (0 : ℚ) < (2 : ℚ) ^ j :=
  zpow_pos (by norm_num) j

/-- What `roundNearestEven` computes for a positive rational: a significand
between `2^52` and `2^53` whose value is nearest to `p / q` among all numbers
`k * 2^j` with `k ≤ 2^53`. -/
theorem rne_spec (p q : Nat) (hp : 0 < p) (hq : 0 < q) :
    2 ^ 52 ≤ (roundNearestEven p q).1 ∧ (roundNearestEven p q).1 ≤ 2 ^ 53 ∧
      ∀ (k : Nat) (j : Int), k ≤ 2 ^ 53 →
        |rneVal p q - (p : ℚ) / q| ≤ |(k : ℚ) * (2 : ℚ) ^ j - (p : ℚ) / q| := by
  have hp0 : p ≠ 0 := by omega
  have hpq : (0 : ℚ) < p := by exact_mod_cast hp
  have hqq : (0 : ℚ) < q := by exact_mod_cast hq
  obtain ⟨hb1, hb2⟩ := binade_spec p q hp hq
  set e : Int := binade p q - 52 with he
  set n : Nat := p * 2 ^ (-e).toNat with hn
  set d : Nat := q * 2 ^ e.toNat with hd
  have hrne : roundNearestEven p q = (roundHalfEven n d, e) := by
    unfold roundNearestEven
    rw [if_neg hp0]
  have hdpos : 0 < d := by positivity
  have hE : (0 : ℚ) < (2 : ℚ) ^ e := two_zpow_pos e
  -- the scaled value
  have hy : (n : ℚ) / d = (p : ℚ) / q / (2 : ℚ) ^ e := by
    rw [← two_zpow_split e, hn, hd]
    push_cast
    field_simp
  have hx : (p : ℚ) / q = (n : ℚ) / d * (2 : ℚ) ^ e := by
    rw [hy]; field_simp; ring
  have hylo : (2 : ℚ) ^ 52 ≤ (n : ℚ) / d := by
    rw [hy, le_div_iff₀ hE]
    have : (2 : ℚ) ^ 52 * (2 : ℚ) ^ e = (2 : ℚ) ^ binade p q := by
      rw [← zpow_natCast, ← zpow_add₀ (by norm_num : (2 : ℚ) ≠ 0)]
      congr 1
      rw [he]; push_cast; ring
    rw [this]; exact hb1
  have hyhi : (n : ℚ) / d < (2 : ℚ) ^ 53 := by
    rw [hy, div_lt_iff₀ hE]
    have : (2 : ℚ) ^ 53 * (2 : ℚ) ^ e = (2 : ℚ) ^ (binade p q + 1) := by
      rw [← zpow_natCast, ← zpow_add₀ (by norm_num : (2 : ℚ) ≠ 0)]
      congr 1
      rw [he]; push_cast; ring
    rw [this]; exact hb2
  have hnear := roundHalfEven_nearest n d hdpos
  set m : Nat := roundHalfEven n d with hm
  have hmlo : 2 ^ 52 ≤ m := by
    by_contra hlt
    have h1 : m + 1 ≤ 2 ^ 52 := by omega
    have h1q : (m : ℚ) + 1 ≤ (2 : ℚ) ^ 52 := by exact_mod_cast h1
    have h2 := hnear ((2 ^ 52 : Nat) : Int)
    have e2 : (((2 ^ 52 : Nat) : Int) : ℚ) = (2 : ℚ) ^ 52 := by push_cast; rfl
    rw [e2, abs_of_nonpos (by linarith), abs_of_nonpos (by linarith)] at h2
    linarith
  have hmhi : m ≤ 2 ^ 53 := by
    by_contra hlt
    have h1 : 2 ^ 53 + 1 ≤ m := by omega
    have h1q : (2 : ℚ) ^ 53 + 1 ≤ (m : ℚ) := by exact_mod_cast h1
    have h2 := hnear ((2 ^ 53 : Nat) : Int)
    have e2 : (((2 ^ 53 : Nat) : Int) : ℚ) = (2 : ℚ) ^ 53 := by push_cast; rfl
    rw [e2, abs_of_nonneg (by linarith), abs_of_nonneg (by linarith)] at h2
    linarith
  have hval : rneVal p q = (m : ℚ) * (2 : ℚ) ^ e := by
    unfold rneVal
    rw [hrne]
  refine ⟨by rw [hrne]; exact hmlo, by rw [hrne]; exact hmhi, ?_⟩
  intro k j hk
  have hkq : (k : ℚ) ≤ (2 : ℚ) ^ 53 := by exact_mod_cast hk
  have hk0 : (0 : ℚ) ≤ k := by positivity
  have hscale : |(m : ℚ) * (2 : ℚ) ^ e - (n : ℚ) / d * (2 : ℚ) ^ e|
      = |(m : ℚ) - (n : ℚ) / d| * (2 : ℚ) ^ e := by
    rw [← sub_mul, abs_mul, abs_of_pos hE]
  rw [hval, hx, hscale]
  rcases le_or_lt e j with hej | hje
  · -- `k * 2^j` is an integer multiple of `2^e`
    have hz : (k : ℚ) * (2 : ℚ) ^ j = ((k * 2 ^ (j - e).toNat : Nat) : ℚ) * (2 : ℚ) ^ e := by
      push_cast
      rw [mul_assoc, ← zpow_natCast, ← zpow_add₀ (by norm_num : (2 : ℚ) ≠ 0)]
      congr 2
      rw [Int.toNat_of_nonneg (by omega)]
      ring
    rw [hz, ← sub_mul, abs_mul, abs_of_pos hE]
    apply mul_le_mul_of_nonneg_right _ (le_of_lt hE)
    exact_mod_cast hnear ((k * 2 ^ (j - e).toNat : Nat) : Int)
  · -- `k * 2^j` lies below the binade
    have hle : (k : ℚ) * (2 : ℚ) ^ j ≤ (2 : ℚ) ^ 52 * (2 : ℚ) ^ e := by
      have h1 : (2 : ℚ) ^ j ≤ (2 : ℚ) ^ (e - 1) :=
        zpow_le_zpow_right₀ (by norm_num) (by omega)
      have h2 : (2 : ℚ) ^ (e - 1) = (2 : ℚ) ^ e / 2 := by
        rw [zpow_sub₀ (by norm_num : (2 : ℚ) ≠ 0), zpow_one]
      calc (k : ℚ) * (2 : ℚ) ^ j ≤ (2 : ℚ) ^ 53 * (2 : ℚ) ^ (e - 1) :=
            mul_le_mul hkq h1 (le_of_lt (two_zpow_pos j)) (by positivity)
        _ = (2 : ℚ) ^ 52 * (2 : ℚ) ^ e := by rw [h2]; ring
    have h3 := hnear ((2 ^ 52 : Nat) : Int)
    have e2 : (((2 ^ 52 : Nat) : Int) : ℚ) = (2 : ℚ) ^ 52 := by push_cast; rfl
    rw [e2, abs_of_nonpos (by linarith : (2 : ℚ) ^ 52 - (n : ℚ) / d ≤ 0)] at h3
    have h4 : |(m : ℚ) - (n : ℚ) / d| * (2 : ℚ) ^ e
        ≤ -((2 : ℚ) ^ 52 - (n : ℚ) / d) * (2 : ℚ) ^ e :=
      mul_le_mul_of_nonneg_right h3 (le_of_lt hE)
    have h5 : (k : ℚ) * (2 : ℚ) ^ j - (n : ℚ) / d * (2 : ℚ) ^ e ≤ 0 := by
      have : (2 : ℚ) ^ 52 * (2 : ℚ) ^ e ≤ (n : ℚ) / d * (2 : ℚ) ^ e :=
        mul_le_mul_of_nonneg_right hylo (le_of_lt hE)
      linarith
    rw [abs_of_nonpos h5]
    have : (2 : ℚ) ^ 52 * (2 : ℚ) ^ e ≤ (n : ℚ) / d * (2 : ℚ) ^ e :=
      mul_le_mul_of_nonneg_right hylo (le_of_lt hE)
    nlinarith

theorem rneVal_zero (q : Nat) : rneVal 0 q = 0 := by
  simp [rneVal, roundNearestEven]

theorem rneVal_pos (p q : Nat) (hp : 0 < p) (hq : 0 < q) : 0 < rneVal p q := by
  have h := (rne_spec p q hp hq).1
  unfold rneVal
  have : (0 : ℚ) < ((roundNearestEven p q).1 : ℚ) := by
    have : 0 < (roundNearestEven p q).1 := lt_of_lt_of_le (by norm_num) h
    exact_mod_cast this
  exact mul_pos this (two_zpow_pos _)

/-- Rounding does not cross a representable number above the argument. -/
theorem rneVal_le (p q : Nat) (hq : 0 < q) (k : Nat) (j : Int) (hk : k ≤ 2 ^ 53)
    (h : (p : ℚ) / q ≤ (k : ℚ) * (2 : ℚ) ^ j) : rneVal p q ≤ (k : ℚ) * (2 : ℚ) ^ j := by
  rcases Nat.eq_zero_or_pos p with hp | hp
  · subst hp
    rw [rneVal_zero]
    have := two_zpow_pos j
    positivity
  · have hn := (rne_spec p q hp hq).2.2 k j hk
    by_contra hlt
    push_neg at hlt
    rw [abs_of_nonneg (by linarith), abs_of_nonneg (by linarith)] at hn
    linarith

/-- Rounding does not cross a representable number below the argument. -/
theorem rneVal_ge (p q : Nat) (hq : 0 < q) (k : Nat) (j : Int) (hk : k ≤ 2 ^ 53)
    (h : (k : ℚ) * (2 : ℚ) ^ j ≤ (p : ℚ) / q) : (k : ℚ) * (2 : ℚ) ^ j ≤ rneVal p q := by
  rcases Nat.eq_zero_or_pos p with hp | hp
  · subst hp
    rw [rneVal_zero]
    simpa using h
  · have hn := (rne_spec p q hp hq).2.2 k j hk
    by_contra hlt
    push_neg at hlt
    rw [abs_of_nonpos (by linarith), abs_of_nonpos (by linarith)] at hn
    linarith

/-- A representable number is rounded to itself. -/
theorem rneVal_exact (p q : Nat) (hq : 0 < q) (k : Nat) (j : Int) (hk : k ≤ 2 ^ 53)
    (h : (p : ℚ) / q = (k : ℚ) * (2 : ℚ) ^ j) : rneVal p q = (p : ℚ) / q := by
  apply le_antisymm
  · rw [h]; exact rneVal_le p q hq k j hk (le_of_eq h)
  · rw [h]; exact rneVal_ge p q hq k j hk (le_of_eq h.symm)

/-- An argument strictly below the midpoint of the representable `u` and some
`w > u` is not rounded up to `w` or beyond. -/
theorem rneVal_lt_of_lt_mid (p q : Nat) (hq : 0 < q) (k : Nat) (j : Int)
    (hk : k ≤ 2 ^ 53) (w : ℚ) (hw : (k : ℚ) * (2 : ℚ) ^ j < w)
    (h : 2 * ((p : ℚ) / q) < (k : ℚ) * (2 : ℚ) ^ j + w) : rneVal p q < w := by
  rcases Nat.eq_zero_or_pos p with hp | hp
  · subst hp
    rw [rneVal_zero]
    have := two_zpow_pos j
    have : (0 : ℚ) ≤ (k : ℚ) * (2 : ℚ) ^ j := by positivity
    linarith
  · have hn := (rne_spec p q hp hq).2.2 k j hk
    by_contra hge
    push_neg at hge
    rw [abs_of_nonneg (by linarith)] at hn
    rcases abs_cases ((k : ℚ) * (2 : ℚ) ^ j - (p : ℚ) / q) with ⟨h1, _⟩ | ⟨h1, _⟩ <;>
      rw [h1] at hn <;> linarith

/-! ## Values of the `float64` operations -/

theorem F64.den_pos (x : F64) : 0 < x.den := by
  unfold F64.den
  positivity

theorem F64.num_div_den (x : F64) : (x.num : ℚ) / x.den = x.val := by
  unfold F64.num F64.den F64.val
  rw [← two_zpow_split x.exp]
  push_cast
  ring

theorem F64.ofInt_natCast (n : Nat) :
    F64.ofInt (n : Int) = ⟨false, (roundNearestEven n 1).1, (roundNearestEven n 1).2⟩ := by
  simp [F64.ofInt]

theorem F64.ofInt_neg_natCast (n : Nat) :
    F64.ofInt (-(n : Int)) =
      ⟨decide (0 < n), (roundNearestEven n 1).1, (roundNearestEven n 1).2⟩ := by
  simp [F64.ofInt]

theorem F64.val_mk_rne (s : Bool) (p q : Nat) :
    F64.val ⟨s, (roundNearestEven p q).1, (roundNearestEven p q).2⟩ = rneVal p q := rfl

/-- Conversion of a natural number below `2^53` is exact. -/
theorem rneVal_natCast (n : Nat) (hn : n ≤ 2 ^ 53) : rneVal n 1 = n := by
  have := rneVal_exact n 1 (by norm_num) n 0 hn (by simp)
  simpa using this

/-! ## The rounded seconds of a duration -/

theorem F64.num_cast (x : F64) : (x.num : ℚ) = x.val * x.den := by
  have hd : (0 : ℚ) < x.den := by exact_mod_cast x.den_pos
  rw [← F64.num_div_den]
  field_simp

theorem F64.add_nonneg (x y : F64) (hx : x.neg = false) (hy : y.neg = false) :
    F64.add x y =
      ⟨false, (roundNearestEven (x.num * y.den + y.num * x.den) (x.den * y.den)).1,
        (roundNearestEven (x.num * y.den + y.num * x.den) (x.den * y.den)).2⟩ := by
  have hs : x.signedNum * (y.den : Int) + y.signedNum * (x.den : Int)
      = ((x.num * y.den + y.num * x.den : Nat) : Int) := by
    simp [F64.signedNum, hx, hy]
  unfold F64.add
  simp only [hs]
  by_cases h0 : x.num * y.den + y.num * x.den = 0
  · simp [h0, hx, hy, roundNearestEven]
  · have h1 : ¬ ((x.num * y.den + y.num * x.den : Nat) : Int) = 0 := by exact_mod_cast h0
    have h2 : ¬ ((x.num * y.den + y.num * x.den : Nat) : Int) < 0 := by omega
    rw [if_neg h1]
    simp only [Int.natAbs_ofNat, h2, decide_False]

theorem durationSeconds_natCast (a : Nat) :
    durationSeconds (a : Int) =
      F64.add (F64.ofInt ((a / 1000000000 : Nat) : Int))
        (F64.div (F64.ofInt ((a % 1000000000 : Nat) : Int)) (F64.ofInt 1000000000)) := by
  unfold durationSeconds
  rfl

theorem F64.add_val (x y : F64) (hx : x.neg = false) (hy : y.neg = false) :
    (F64.add x y).val = rneVal (x.num * y.den + y.num * x.den) (x.den * y.den) ∧
      ((x.num * y.den + y.num * x.den : Nat) : ℚ) / ((x.den * y.den : Nat) : ℚ)
        = x.val + y.val := by
  constructor
  · rw [F64.add_nonneg x y hx hy]
    rfl
  · have hdx : (0 : ℚ) < x.den := by exact_mod_cast x.den_pos
    have hdy : (0 : ℚ) < y.den := by exact_mod_cast y.den_pos
    push_cast
    rw [F64.num_cast x, F64.num_cast y]
    field_simp
    ring

theorem F64.div_val (x y : F64) (hy : 0 < y.num) :
    (F64.div x y).val = rneVal (x.num * y.den) (x.den * y.num) ∧
      ((x.num * y.den : Nat) : ℚ) / ((x.den * y.num : Nat) : ℚ) = x.val / y.val := by
  refine ⟨rfl, ?_⟩
  have hdx : (0 : ℚ) < x.den := by exact_mod_cast x.den_pos
  have hdy : (0 : ℚ) < y.den := by exact_mod_cast y.den_pos
  have hny : (0 : ℚ) < y.num := by exact_mod_cast hy
  have hvy : y.val ≠ 0 := by
    rw [← F64.num_div_den]
    positivity
  push_cast
  rw [F64.num_cast x]
  have : (y.num : ℚ) = y.val * y.den := F64.num_cast y
  rw [this]
  field_simp
  ring

theorem mathRound_man (x : F64) (S : Nat) (h1 : (S : ℚ) ≤ x.val + 1 / 2)
    (h2 : x.val + 1 / 2 < (S : ℚ) + 1) : (mathRound x).man = S := by
  have hd : 0 < x.den := x.den_pos
  have hdq : (0 : ℚ) < x.den := by exact_mod_cast hd
  have hv : x.val = (x.num : ℚ) / x.den := (F64.num_div_den x).symm
  rw [hv] at h1 h2
  have e1 : (x.num : ℚ) / x.den + 1 / 2 = ((2 * x.num + x.den : Nat) : ℚ) / ((2 * x.den : Nat) : ℚ) := by
    push_cast
    field_simp
    ring
  rw [e1] at h1 h2
  have hd2 : (0 : ℚ) < ((2 * x.den : Nat) : ℚ) := by positivity
  rw [le_div_iff₀ hd2] at h1
  rw [div_lt_iff₀ hd2] at h2
  have h1n : S * (2 * x.den) ≤ 2 * x.num + x.den := by exact_mod_cast h1
  have h2n : 2 * x.num + x.den < (S + 1) * (2 * x.den) := by exact_mod_cast h2
  show (2 * x.num + x.den) / (2 * x.den) = S
  apply Nat.div_eq_of_lt_le
  · exact h1n
  · exact h2n

theorem ofInt_billion : F64.ofInt 1000000000 = ⟨false, 8388608000000000, -23⟩ := by decide

theorem ofInt_billion_val : (F64.ofInt 1000000000).val = 1000000000 := by
  rw [ofInt_billion]
  simp only [F64.val]
  norm_num

/-- The value of `float64(n)` for `n < 2^53`. -/
theorem ofInt_val (n : Nat) (hn : n ≤ 2 ^ 53) : (F64.ofInt (n : Int)).val = n := by
  rw [F64.ofInt_natCast, F64.val_mk_rne, rneVal_natCast n hn]

theorem fracF_neg (n : Nat) : (fracF n).neg = false := by
  simp [fracF, F64.div, F64.ofInt]

theorem fracF_val (n : Nat) (hn : n ≤ 2 ^ 53) :
    ∃ p q : Nat, 0 < q ∧ (fracF n).val = rneVal p q ∧ (p : ℚ) / q = (n : ℚ) / 1000000000 := by
  have hpos : 0 < (F64.ofInt 1000000000).num := by rw [ofInt_billion]; decide
  obtain ⟨h1, h2⟩ := F64.div_val (F64.ofInt (n : Int)) (F64.ofInt 1000000000) hpos
  refine ⟨_, _, ?_, h1, ?_⟩
  · exact Nat.mul_pos (F64.den_pos _) hpos
  · rw [h2, ofInt_val n hn, ofInt_billion_val]

theorem F64.val_nonneg (x : F64) : 0 ≤ x.val := by
  unfold F64.val
  have := two_zpow_pos x.exp
  positivity

theorem secondsMag_eq (a : Nat) :
    secondsMag a =
      (mathRound (F64.add (F64.ofInt ((a / 1000000000 : Nat) : Int))
        (fracF (a % 1000000000)))).man := by
  unfold secondsMag fracF
  rw [durationSeconds_natCast]

/-- Below `2^24` seconds the rounded magnitude is the nearest integer to the
exact number of seconds, halves rounded up. -/
theorem secondsMag_small (a : Nat) (ha : a < 2 ^ 24 * 1000000000) :
    secondsMag a = (a + 500000000) / 1000000000 := by
  rw [secondsMag_eq]
  set S : Nat := a / 1000000000 with hS
  set N : Nat := a % 1000000000 with hN
  have hSlt : S < 2 ^ 24 := by omega
  have hNlt : N < 1000000000 := by omega
  have hx1 : (F64.ofInt (S : Int)).neg = false := by rw [F64.ofInt_natCast]
  have hx1v : (F64.ofInt (S : Int)).val = S := ofInt_val S (by omega)
  obtain ⟨p, q, hq, hyv, hpq⟩ := fracF_val N (by omega)
  obtain ⟨hsv, hratio⟩ := F64.add_val (F64.ofInt (S : Int)) (fracF N) hx1 (fracF_neg N)
  rw [hx1v] at hratio
  have hD : 0 < (F64.ofInt (S : Int)).den * (fracF N).den :=
    Nat.mul_pos (F64.den_pos _) (F64.den_pos _)
  have hy0 : 0 ≤ (fracF N).val := F64.val_nonneg _
  have hSq : (0 : ℚ) ≤ S := by positivity
  by_cases hhalf : 500000000 ≤ N
  · -- the fraction is at least one half
    have hNq : (500000000 : ℚ) ≤ N := by exact_mod_cast hhalf
    have hNq' : (N : ℚ) ≤ 1000000000 := by exact_mod_cast (le_of_lt hNlt)
    have hyge : (1 : ℚ) / 2 ≤ (fracF N).val := by
      have := rneVal_ge p q hq 1 (-1) (by norm_num) (by
        rw [hpq, le_div_iff₀ (by norm_num)]
        norm_num
        linarith)
      rw [hyv]
      norm_num at this ⊢
      exact this
    have hyle : (fracF N).val ≤ 1 := by
      have := rneVal_le p q hq 1 0 (by norm_num) (by
        rw [hpq, div_le_iff₀ (by norm_num)]
        norm_num
        linarith)
      rw [hyv]
      simpa using this
    have hvge : (S : ℚ) + 1 / 2 ≤ (F64.add (F64.ofInt (S : Int)) (fracF N)).val := by
      have := rneVal_ge _ _ hD (2 * S + 1) (-1) (by omega) (by
        rw [hratio]
        push_cast
        norm_num
        linarith)
      rw [hsv]
      push_cast at this
      norm_num at this
      linarith
    have hvle : (F64.add (F64.ofInt (S : Int)) (fracF N)).val ≤ (S : ℚ) + 1 := by
      have := rneVal_le _ _ hD (S + 1) 0 (by omega) (by
        rw [hratio]
        push_cast
        norm_num
        linarith)
      rw [hsv]
      push_cast at this
      simpa using this
    have := mathRound_man (F64.add (F64.ofInt (S : Int)) (fracF N)) (S + 1)
      (by push_cast; linarith) (by push_cast; linarith)
    rw [this]
    omega
  · -- the fraction is below one half
    have hNq : (N : ℚ) ≤ 499999999 := by
      have : N ≤ 499999999 := by omega
      exact_mod_cast this
    have hyle : (fracF N).val ≤ (549755812863 : ℚ) / 2 ^ 40 := by
      have := rneVal_le p q hq 549755812863 (-40) (by norm_num) (by
        rw [hpq, div_le_iff₀ (by norm_num)]
        norm_num
        linarith)
      rw [hyv]
      norm_num at this ⊢
      exact this
    have hvge : (S : ℚ) ≤ (F64.add (F64.ofInt (S : Int)) (fracF N)).val := by
      have := rneVal_ge _ _ hD S 0 (by omega) (by
        rw [hratio]
        norm_num
        linarith)
      rw [hsv]
      simpa using this
    have hvlt : (F64.add (F64.ofInt (S : Int)) (fracF N)).val < (S : ℚ) + 1 / 2 := by
      rw [hsv]
      apply rneVal_lt_of_lt_mid _ _ hD (S * 536870912 + 268435455) (-29) (by omega)
      · push_cast
        norm_num
        linarith
      · rw [hratio]
        push_cast
        norm_num
        linarith
    have := mathRound_man (F64.add (F64.ofInt (S : Int)) (fracF N)) S
      (by linarith) (by linarith)
    rw [this]
    omega

/-- A whole number of seconds that fits a `Duration` is reproduced exactly. -/
theorem secondsMag_whole (a : Nat) (hw : a % 1000000000 = 0) (ha : a < 2 ^ 63) :
    secondsMag a = a / 1000000000 := by
  rw [secondsMag_eq, hw]
  set S : Nat := a / 1000000000 with hS
  have hSlt : S ≤ 2 ^ 53 := by omega
  have hx1 : (F64.ofInt (S : Int)).neg = false := by rw [F64.ofInt_natCast]
  have hx1v : (F64.ofInt (S : Int)).val = S := ofInt_val S hSlt
  obtain ⟨p, q, hq, hyv, hpq⟩ := fracF_val 0 (by norm_num)
  have hy : (fracF 0).val = 0 := by
    rw [hyv, rneVal_exact p q hq 0 0 (by norm_num) (by rw [hpq]; norm_num), hpq]
    norm_num
  obtain ⟨hsv, hratio⟩ := F64.add_val (F64.ofInt (S : Int)) (fracF 0) hx1 (fracF_neg 0)
  rw [hx1v, hy, add_zero] at hratio
  have hD : 0 < (F64.ofInt (S : Int)).den * (fracF 0).den :=
    Nat.mul_pos (F64.den_pos _) (F64.den_pos _)
  have hv : (F64.add (F64.ofInt (S : Int)) (fracF 0)).val = S := by
    rw [hsv, rneVal_exact _ _ hD S 0 hSlt (by rw [hratio]; simp), hratio]
  exact mathRound_man (F64.add (F64.ofInt (S : Int)) (fracF 0)) S
    (by rw [hv]; linarith) (by rw [hv]; linarith)

/-! ## Sign symmetry of `Seconds` and the formatted result -/

theorem rne_num_pos (p q : Nat) (hp : 0 < p) (hq : 0 < q) (s : Bool) :
    0 < F64.num ⟨s, (roundNearestEven p q).1, (roundNearestEven p q).2⟩ := by
  have h := (rne_spec p q hp hq).1
  unfold F64.num
  have : 0 < (roundNearestEven p q).1 := lt_of_lt_of_le (by norm_num) h
  positivity

theorem rne_num_zero (q : Nat) (s : Bool) :
    F64.num ⟨s, (roundNearestEven 0 q).1, (roundNearestEven 0 q).2⟩ = 0 := by
  simp [F64.num, roundNearestEven]

theorem F64.add_flip (x y : F64) (hx : x.neg = false) (hy : y.neg = false) (sx sy : Bool)
    (hsx : sx = false → x.num = 0) (hsy : sy = false → y.num = 0)
    (hpos : 0 < x.num * y.den + y.num * x.den) :
    F64.add ⟨sx, x.man, x.exp⟩ ⟨sy, y.man, y.exp⟩ =
      ⟨true, (F64.add x y).man, (F64.add x y).exp⟩ := by
  rw [F64.add_nonneg x y hx hy]
  have h1 : F64.signedNum ⟨sx, x.man, x.exp⟩ = -(x.num : Int) := by
    cases sx with
    | true => rfl
    | false =>
      have : x.num = 0 := hsx rfl
      have h0 : F64.num ⟨false, x.man, x.exp⟩ = 0 := this
      simp [F64.signedNum, h0, this]
  have h2 : F64.signedNum ⟨sy, y.man, y.exp⟩ = -(y.num : Int) := by
    cases sy with
    | true => rfl
    | false =>
      have : y.num = 0 := hsy rfl
      have h0 : F64.num ⟨false, y.man, y.exp⟩ = 0 := this
      simp [F64.signedNum, h0, this]
  have hs : F64.signedNum ⟨sx, x.man, x.exp⟩ * ((F64.den ⟨sy, y.man, y.exp⟩ : Nat) : Int)
      + F64.signedNum ⟨sy, y.man, y.exp⟩ * ((F64.den ⟨sx, x.man, x.exp⟩ : Nat) : Int)
      = -((x.num * y.den + y.num * x.den : Nat) : Int) := by
    rw [h1, h2]
    show -(x.num : Int) * (y.den : Int) + -(y.num : Int) * (x.den : Int) = _
    push_cast
    ring
  unfold F64.add
  simp only [hs]
  have hne : ¬ -((x.num * y.den + y.num * x.den : Nat) : Int) = 0 := by omega
  have hlt : -((x.num * y.den + y.num * x.den : Nat) : Int) < 0 := by omega
  rw [if_neg hne]
  simp only [Int.natAbs_neg, Int.natAbs_ofNat, hlt, decide_True]
  rfl

theorem neg_natCast_tdiv (a : Nat) :
    (-(a : Int)).tdiv 1000000000 = -((a / 1000000000 : Nat) : Int) := by
  cases a with
  | zero => rfl
  | succ n => rfl

theorem neg_natCast_tmod (a : Nat) :
    (-(a : Int)).tmod 1000000000 = -((a % 1000000000 : Nat) : Int) := by
  cases a with
  | zero => rfl
  | succ n => rfl

theorem durationSeconds_neg (a : Nat) (ha : 0 < a) :
    durationSeconds (-(a : Int)) =
      ⟨true, (durationSeconds (a : Int)).man, (durationSeconds (a : Int)).exp⟩ := by
  have hd : durationSeconds (-(a : Int)) =
      F64.add (F64.ofInt (-((a / 1000000000 : Nat) : Int)))
        (F64.div (F64.ofInt (-((a % 1000000000 : Nat) : Int))) (F64.ofInt 1000000000)) := by
    unfold durationSeconds
    rw [neg_natCast_tdiv, neg_natCast_tmod]
  rw [hd, durationSeconds_natCast]
  set S : Nat := a / 1000000000 with hS
  set N : Nat := a % 1000000000 with hN
  have hx : (F64.ofInt (S : Int)).neg = false := by rw [F64.ofInt_natCast]
  have hy : (F64.div (F64.ofInt (N : Int)) (F64.ofInt 1000000000)).neg = false := fracF_neg N
  have hbpos : 0 < (F64.ofInt 1000000000).num := by rw [ofInt_billion]; decide
  have e1 : F64.ofInt (-(S : Int)) =
      ⟨decide (0 < S), (F64.ofInt (S : Int)).man, (F64.ofInt (S : Int)).exp⟩ := by
    rw [F64.ofInt_neg_natCast, F64.ofInt_natCast]
  have e2 : F64.div (F64.ofInt (-(N : Int))) (F64.ofInt 1000000000) =
      ⟨decide (0 < N), (F64.div (F64.ofInt (N : Int)) (F64.ofInt 1000000000)).man,
        (F64.div (F64.ofInt (N : Int)) (F64.ofInt 1000000000)).exp⟩ := by
    rw [F64.ofInt_neg_natCast, F64.ofInt_natCast, ofInt_billion]
    simp [F64.div, F64.num, F64.den]
  rw [e1, e2]
  apply F64.add_flip (F64.ofInt (S : Int))
    (F64.div (F64.ofInt (N : Int)) (F64.ofInt 1000000000)) hx hy
  · intro h
    have : S = 0 := by simpa using h
    rw [this, F64.ofInt_natCast]
    exact rne_num_zero 1 false
  · intro h
    have : N = 0 := by simpa using h
    rw [this]
    have h0 : (F64.ofInt ((0 : Nat) : Int)).num = 0 := by
      rw [F64.ofInt_natCast]; exact rne_num_zero 1 false
    show F64.num ⟨_, (roundNearestEven _ _).1, (roundNearestEven _ _).2⟩ = 0
    rw [h0, Nat.zero_mul]
    exact rne_num_zero _ _
  · rcases Nat.eq_zero_or_pos S with h0 | hSpos
    · have hNpos : 0 < N := by omega
      have h2 : 0 < (F64.ofInt (N : Int)).num := by
        rw [F64.ofInt_natCast]; exact rne_num_pos N 1 hNpos (by norm_num) false
      have h3 : 0 < (F64.div (F64.ofInt (N : Int)) (F64.ofInt 1000000000)).num :=
        rne_num_pos _ _ (Nat.mul_pos h2 (F64.den_pos _)) (Nat.mul_pos (F64.den_pos _) hbpos) _
      have := Nat.mul_pos h3 (F64.den_pos (F64.ofInt (S : Int)))
      omega
    · have h2 : 0 < (F64.ofInt (S : Int)).num := by
        rw [F64.ofInt_natCast]; exact rne_num_pos S 1 hSpos (by norm_num) false
      have := Nat.mul_pos h2
        (F64.den_pos (F64.div (F64.ofInt (N : Int)) (F64.ofInt 1000000000)))
      omega

theorem durationSeconds_natCast_neg (a : Nat) : (durationSeconds (a : Int)).neg = false := by
  rw [durationSeconds_natCast,
    F64.add_nonneg (F64.ofInt ((a / 1000000000 : Nat) : Int))
      (F64.div (F64.ofInt ((a % 1000000000 : Nat) : Int)) (F64.ofInt 1000000000))
      (by rw [F64.ofInt_natCast]) (fracF_neg _)]

theorem sprintf0f_int (s : Bool) (n : Nat) :
    sprintf0f ⟨s, n, 0⟩ = (if s then "-" else "") ++ toString n := by
  simp [sprintf0f, F64.num, F64.den, roundHalfEven, Nat.mod_one]

/-- The formatted rounded seconds of a duration `d`: the sign of `d`, then
the rounded magnitude. -/
theorem sprintf0f_mathRound (d : Int) :
    sprintf0f (mathRound (durationSeconds d)) =
      (if d < 0 then "-" else "") ++ toString (secondsMag d.natAbs) := by
  rcases lt_or_le d 0 with hneg | hpos
  · obtain ⟨a, rfl⟩ : ∃ a : Nat, d = -(a : Int) := ⟨d.natAbs, by omega⟩
    have ha : 0 < a := by omega
    rw [durationSeconds_neg a ha]
    have : mathRound ⟨true, (durationSeconds (a : Int)).man, (durationSeconds (a : Int)).exp⟩
        = ⟨true, secondsMag a, 0⟩ := rfl
    rw [this, sprintf0f_int]
    simp [hneg]
  · obtain ⟨a, rfl⟩ : ∃ a : Nat, d = (a : Int) := ⟨d.natAbs, by omega⟩
    have : mathRound (durationSeconds (a : Int)) = ⟨false, secondsMag a, 0⟩ := by
      show (⟨(durationSeconds (a : Int)).neg, _, 0⟩ : F64) = _
      rw [durationSeconds_natCast_neg]
      rfl
    have hnn : ¬ (a : Int) < 0 := by omega
    rw [this, sprintf0f_int]
    simp [hnn]

theorem mathRound_man_ge (x : F64) (S : Nat) (h1 : (S : ℚ) ≤ x.val + 1 / 2) :
    S ≤ (mathRound x).man := by
  have hd : 0 < x.den := x.den_pos
  have hdq : (0 : ℚ) < x.den := by exact_mod_cast hd
  have hv : x.val = (x.num : ℚ) / x.den := (F64.num_div_den x).symm
  rw [hv] at h1
  have e1 : (x.num : ℚ) / x.den + 1 / 2
      = ((2 * x.num + x.den : Nat) : ℚ) / ((2 * x.den : Nat) : ℚ) := by
    push_cast
    field_simp
    ring
  rw [e1] at h1
  have hd2 : (0 : ℚ) < ((2 * x.den : Nat) : ℚ) := by positivity
  rw [le_div_iff₀ hd2] at h1
  have h1n : S * (2 * x.den) ≤ 2 * x.num + x.den := by exact_mod_cast h1
  show S ≤ (2 * x.num + x.den) / (2 * x.den)
  exact (Nat.le_div_iff_mul_le (by omega)).2 h1n

/-- A duration of at least half a second never rounds to zero. -/
theorem secondsMag_ge_one (a : Nat) (h5 : 500000000 ≤ a) (ha : a ≤ 2 ^ 63) :
    1 ≤ secondsMag a := by
  by_cases hsmall : a < 2 ^ 24 * 1000000000
  · rw [secondsMag_small a hsmall]
    omega
  · rw [secondsMag_eq]
    set S : Nat := a / 1000000000 with hS
    set N : Nat := a % 1000000000 with hN
    have hS1 : 1 ≤ S := by omega
    have hS2 : S ≤ 2 ^ 53 := by omega
    have hx1 : (F64.ofInt (S : Int)).neg = false := by rw [F64.ofInt_natCast]
    have hx1v : (F64.ofInt (S : Int)).val = S := ofInt_val S hS2
    obtain ⟨hsv, hratio⟩ := F64.add_val (F64.ofInt (S : Int)) (fracF N) hx1 (fracF_neg N)
    rw [hx1v] at hratio
    have hD : 0 < (F64.ofInt (S : Int)).den * (fracF N).den :=
      Nat.mul_pos (F64.den_pos _) (F64.den_pos _)
    have hy0 : 0 ≤ (fracF N).val := F64.val_nonneg _
    have hvge : (S : ℚ) ≤ (F64.add (F64.ofInt (S : Int)) (fracF N)).val := by
      have := rneVal_ge _ _ hD S 0 hS2 (by
        rw [hratio]
        norm_num
        linarith)
      rw [hsv]
      simpa using this
    have := mathRound_man_ge (F64.add (F64.ofInt (S : Int)) (fracF N)) S (by linarith)
    omega

/-! ## `elapsed_time` -/

theorem timeSub_eq (t u : Time) (h1 : minDuration ≤ nanosBetween t u)
    (h2 : nanosBetween t u ≤ maxDuration) : timeSub t u = nanosBetween t u := by
  unfold timeSub
  have e : (t.sec - u.sec) * 1000000000 + ((t.nsec : Int) - (u.nsec : Int))
      = nanosBetween t u := rfl
  simp only [e]
  rw [if_neg (by omega), if_neg (by omega)]

theorem timeSub_neg (t u : Time) (h : nanosBetween t u < 0) : timeSub t u < 0 := by
  unfold timeSub
  have e : (t.sec - u.sec) * 1000000000 + ((t.nsec : Int) - (u.nsec : Int))
      = nanosBetween t u := rfl
  simp only [e]
  have hmin : minDuration < 0 := by decide
  have hmax : ¬ maxDuration < nanosBetween t u := by
    have : (0 : Int) ≤ maxDuration := by decide
    omega
  by_cases h1 : nanosBetween t u < minDuration
  · rw [if_pos h1]; exact hmin
  · rw [if_neg h1, if_neg hmax]; exact h

theorem elapsed_eq (item : InputData) (out : OutputData) (c s : Time)
    (h : (processItem item).line = some out) (hc : timeParse item.CreateTime = some c)
    (hs : timeParse item.StateTime = some s) :
    out.ElapsedTime =
      (if timeSub s c < 0 then "-" else "") ++ toString (secondsMag (timeSub s c).natAbs) := by
  obtain ⟨hm, _⟩ := line_some_inv item out h
  rw [processItem_valid item hm c s hc hs] at h
  simp only [Option.some.injEq] at h
  subst h
  exact sprintf0f_mathRound (timeSub s c)

theorem toString_neg_natCast (n : Nat) (hn : 0 < n) :
    toString (-(n : Int)) = "-" ++ toString n := by
  cases n with
  | zero => omega
  | succ m => rfl

theorem empty_append_string (s : String) : "" ++ s = s := by
  apply String.ext
  simp

/-- C2, as stated, fails on three kinds of input: a difference beyond the
range of a `Duration` (about 292 years) is saturated; a negative difference
above half a second is printed as `"-0"`; from `2^24` seconds on, a fraction
just below one half is rounded up by the `float64` addition. -/
theorem elapsed_time_counterexample :
    ¬ elapsedIsNearest (sampleItem "0001-01-01T00:00:00Z" "2024-01-01T00:00:00Z" []) ∧
      ¬ elapsedIsNearest (sampleItem "2024-01-01T00:00:00.4Z" "2024-01-01T00:00:00Z" []) ∧
      ¬ elapsedIsNearest
        (sampleItem "2023-01-01T00:00:00Z" "2023-07-14T04:20:16.499999999Z" []) := by
  refine ⟨?_, ?_, ?_⟩
  · intro hall
    have := hall
      ⟨"SPARK", "0001-01-01T00:00:00Z", "user@example.com", "us-central1",
        [("spark_executor_memory", "4g"), ("a_b_c", "1")], "SUCCEEDED", "", "1000", "20",
        "9223372037", "0"⟩ ⟨-62135596800, 0⟩ ⟨1704067200, 0⟩ (by decide) (by decide) (by decide)
    exact absurd this (by decide)
  · intro hall
    have := hall
      ⟨"SPARK", "2024-01-01T00:00:00.4Z", "user@example.com", "us-central1",
        [("spark_executor_memory", "4g"), ("a_b_c", "1")], "SUCCEEDED", "", "1000", "20",
        "-0", "0"⟩ ⟨1704067200, 400000000⟩ ⟨1704067200, 0⟩ (by decide) (by decide) (by decide)
    exact absurd this (by decide)
  · intro hall
    have := hall
      ⟨"SPARK", "2023-01-01T00:00:00Z", "user@example.com", "us-central1",
        [("spark_executor_memory", "4g"), ("a_b_c", "1")], "SUCCEEDED", "", "1000", "20",
        "16777217", "0"⟩ ⟨1672531200, 0⟩ ⟨1689308416, 499999999⟩ (by decide) (by decide)
      (by decide)
    exact absurd this (by decide)

/-- C2, amended. For every written record whose `stateTime - createTime` is
below `2^24` seconds in magnitude, or is a whole number of seconds that fits a
`Duration`, `elapsed_time` is the sign of the difference followed by the
decimal digits of its magnitude rounded to the nearest second (halves up);
unless the difference is negative and above minus half a second (printed
`"-0"`), this is the decimal string of the nearest integer.  The worked example
gives `"330"`. -/
theorem elapsed_time_nearest (item : InputData) (out : OutputData) (c s : Time)
    (h : (processItem item).line = some out) (hc : timeParse item.CreateTime = some c)
    (hs : timeParse item.StateTime = some s)
    (hrange : (-16777216000000000 < nanosBetween s c ∧ nanosBetween s c < 16777216000000000) ∨
      (nanosBetween s c % 1000000000 = 0 ∧ -9223372036854775808 < nanosBetween s c ∧
        nanosBetween s c < 9223372036854775808)) :
    out.ElapsedTime =
        (if nanosBetween s c < 0 then "-" else "") ++
          toString (roundedMagnitude (nanosBetween s c)) ∧
      ((0 ≤ nanosBetween s c ∨ nanosBetween s c ≤ -500000000) →
        out.ElapsedTime = toString (nearestSecond (nanosBetween s c))) ∧
      (processItem (sampleItem "2024-01-01T00:00:00Z" "2024-01-01T00:05:30Z" [])).line.map
        (fun o => o.ElapsedTime) = some "330" := by
  have hmin : minDuration = -9223372036854775808 := by decide
  have hmax : maxDuration = 9223372036854775807 := by decide
  have hsub : timeSub s c = nanosBetween s c :=
    timeSub_eq s c (by rw [hmin]; omega) (by rw [hmax]; omega)
  have hmag : secondsMag (nanosBetween s c).natAbs = roundedMagnitude (nanosBetween s c) := by
    unfold roundedMagnitude
    rcases hrange with ⟨h1, h2⟩ | ⟨h0, h1, h2⟩
    · exact secondsMag_small _ (by omega)
    · rw [secondsMag_whole _ (by omega) (by omega)]
      omega
  have hel := elapsed_eq item out c s h hc hs
  rw [hsub, hmag] at hel
  refine ⟨hel, ?_, by decide⟩
  intro hcase
  rw [hel]
  unfold nearestSecond
  by_cases hneg : nanosBetween s c < 0
  · have hle : nanosBetween s c ≤ -500000000 := by omega
    have hpos : 0 < roundedMagnitude (nanosBetween s c) := by
      unfold roundedMagnitude
      omega
    rw [if_pos hneg, if_pos hneg, toString_neg_natCast _ hpos]
  · rw [if_neg hneg, if_neg hneg, empty_append_string]
    rfl

theorem elapsed_time_nearest_witness :
    ((-16777216000000000 < nanosBetween ⟨1704067200, 0⟩ ⟨1704067200, 600000000⟩ ∧
        nanosBetween ⟨1704067200, 0⟩ ⟨1704067200, 600000000⟩ < 16777216000000000) ∨
      (nanosBetween ⟨1704067200, 0⟩ ⟨1704067200, 600000000⟩ % 1000000000 = 0 ∧
        -9223372036854775808 < nanosBetween ⟨1704067200, 0⟩ ⟨1704067200, 600000000⟩ ∧
        nanosBetween ⟨1704067200, 0⟩ ⟨1704067200, 600000000⟩ < 9223372036854775808)) ∧
      "-1" = (if nanosBetween ⟨1704067200, 0⟩ ⟨1704067200, 600000000⟩ < 0 then "-" else "") ++
        toString (roundedMagnitude (nanosBetween ⟨1704067200, 0⟩ ⟨1704067200, 600000000⟩)) :=
  ⟨by decide,
    (elapsed_time_nearest (sampleItem "2024-01-01T00:00:00.6Z" "2024-01-01T00:00:00Z" [])
      ⟨"SPARK", "2024-01-01T00:00:00.6Z", "user@example.com", "us-central1",
        [("spark_executor_memory", "4g"), ("a_b_c", "1")], "SUCCEEDED", "", "1000", "20",
        "-1", "0"⟩ ⟨1704067200, 600000000⟩ ⟨1704067200, 0⟩ (by decide) (by decide) (by decide)
      (by decide)).1⟩

/-- C7, as stated, fails: a `stateTime` less than half a second before
`createTime` gives `"-0"`, which does not read as a negative number. -/
theorem elapsed_negative_counterexample :
    ¬ elapsedIsNegative (sampleItem "2024-01-01T00:00:00.4Z" "2024-01-01T00:00:00Z" []) := by
  intro hall
  have := hall
    ⟨"SPARK", "2024-01-01T00:00:00.4Z", "user@example.com", "us-central1",
      [("spark_executor_memory", "4g"), ("a_b_c", "1")], "SUCCEEDED", "", "1000", "20",
      "-0", "0"⟩ ⟨1704067200, 400000000⟩ ⟨1704067200, 0⟩ (by decide) (by decide) (by decide)
    (by decide)
  exact absurd this (by decide)

/-- C7, amended. For every written record whose `stateTime` is earlier than
its `createTime`, `elapsed_time` is a minus sign followed by a decimal number
`n` and is never clamped: `n` is at least 1 when `stateTime` is half a second
or more earlier, it is 0 (the string is `"-0"`) when `stateTime` is less than
half a second earlier, and below `2^24` seconds it is the magnitude of the
difference rounded to the nearest second.  Thirty seconds earlier gives
`"-30"`. -/
theorem elapsed_negative (item : InputData) (out : OutputData) (c s : Time)
    (h : (processItem item).line = some out) (hc : timeParse item.CreateTime = some c)
    (hs : timeParse item.StateTime = some s) (hlt : nanosBetween s c < 0) :
    (∃ n : Nat, out.ElapsedTime = "-" ++ toString n ∧
        (nanosBetween s c ≤ -500000000 → 1 ≤ n) ∧
        (-500000000 < nanosBetween s c → n = 0) ∧
        (-16777216000000000 < nanosBetween s c → n = roundedMagnitude (nanosBetween s c))) ∧
      (processItem (sampleItem "2024-01-01T00:00:30Z" "2024-01-01T00:00:00Z" [])).line.map
        (fun o => o.ElapsedTime) = some "-30" := by
  have hmin : minDuration = -9223372036854775808 := by decide
  have hmax : maxDuration = 9223372036854775807 := by decide
  have hel := elapsed_eq item out c s h hc hs
  rw [if_pos (timeSub_neg s c hlt)] at hel
  have hsmall : -16777216000000000 < nanosBetween s c →
      timeSub s c = nanosBetween s c := by
    intro hb
    exact timeSub_eq s c (by rw [hmin]; omega) (by rw [hmax]; omega)
  have hclamp : timeSub s c = nanosBetween s c ∨ timeSub s c = minDuration := by
    unfold timeSub
    have e : (s.sec - c.sec) * 1000000000 + ((s.nsec : Int) - (c.nsec : Int))
        = nanosBetween s c := rfl
    simp only [e]
    by_cases h1 : nanosBetween s c < minDuration
    · right; rw [if_pos h1]
    · left
      rw [if_neg h1, if_neg (by rw [hmax]; omega)]
  refine ⟨⟨secondsMag (timeSub s c).natAbs, hel, ?_, ?_, ?_⟩, by decide⟩
  · intro hle
    apply secondsMag_ge_one
    · rcases hclamp with e | e
      · rw [e]; omega
      · rw [e, hmin]; decide
    · have hge : minDuration ≤ timeSub s c := by
        rcases hclamp with e | e
        · rw [e]
          by_contra hcon
          have : timeSub s c = minDuration := by
            unfold timeSub
            have e' : (s.sec - c.sec) * 1000000000 + ((s.nsec : Int) - (c.nsec : Int))
                = nanosBetween s c := rfl
            simp only [e']
            rw [if_pos (by omega)]
          rw [e] at this
          omega
        · rw [e]
      have hneg := timeSub_neg s c hlt
      rw [hmin] at hge
      omega
  · intro hgt
    rw [hsmall (by omega), secondsMag_small _ (by omega)]
    omega
  · intro hgt
    rw [hsmall hgt]
    exact secondsMag_small _ (by omega)

theorem elapsed_negative_witness :
    nanosBetween ⟨1704067200, 0⟩ ⟨1704067230, 250000000⟩ < 0 ∧
      ∃ n : Nat, "-30" = "-" ++ toString n ∧
        (nanosBetween ⟨1704067200, 0⟩ ⟨1704067230, 250000000⟩ ≤ -500000000 → 1 ≤ n) ∧
        (-500000000 < nanosBetween ⟨1704067200, 0⟩ ⟨1704067230, 250000000⟩ → n = 0) ∧
        (-16777216000000000 < nanosBetween ⟨1704067200, 0⟩ ⟨1704067230, 250000000⟩ →
          n = roundedMagnitude (nanosBetween ⟨1704067200, 0⟩ ⟨1704067230, 250000000⟩)) :=
  ⟨by decide,
    (elapsed_negative (sampleItem "2024-01-01T00:00:30.25Z" "2024-01-01T00:00:00Z" [])
      ⟨"SPARK", "2024-01-01T00:00:30.25Z", "user@example.com", "us-central1",
        [("spark_executor_memory", "4g"), ("a_b_c", "1")], "SUCCEEDED", "", "1000", "20",
        "-30", "0"⟩ ⟨1704067230, 250000000⟩ ⟨1704067200, 0⟩ (by decide) (by decide) (by decide)
      (by decide)).1⟩

/-! ## `run_time` -/

/-- Within the stated range the printed rounding is the sign of the difference
followed by its magnitude rounded to the nearest second. -/
theorem sprintf0f_roundedSeconds (t u : Time)
    (hrange : (-16777216000000000 < nanosBetween t u ∧ nanosBetween t u < 16777216000000000) ∨
      (nanosBetween t u % 1000000000 = 0 ∧ -9223372036854775808 < nanosBetween t u ∧
        nanosBetween t u < 9223372036854775808)) :
    sprintf0f (roundedSeconds t u) =
        (if nanosBetween t u < 0 then "-" else "") ++
          toString (roundedMagnitude (nanosBetween t u)) ∧
      ((0 ≤ nanosBetween t u ∨ nanosBetween t u ≤ -500000000) →
        sprintf0f (roundedSeconds t u) = toString (nearestSecond (nanosBetween t u))) := by
  have hmin : minDuration = -9223372036854775808 := by decide
  have hmax : maxDuration = 9223372036854775807 := by decide
  have hsub : timeSub t u = nanosBetween t u :=
    timeSub_eq t u (by rw [hmin]; omega) (by rw [hmax]; omega)
  have hmag : secondsMag (nanosBetween t u).natAbs = roundedMagnitude (nanosBetween t u) := by
    unfold roundedMagnitude
    rcases hrange with ⟨h1, h2⟩ | ⟨h0, h1, h2⟩
    · exact secondsMag_small _ (by omega)
    · rw [secondsMag_whole _ (by omega) (by omega)]
      omega
  have hel : sprintf0f (roundedSeconds t u) =
      (if nanosBetween t u < 0 then "-" else "") ++
        toString (roundedMagnitude (nanosBetween t u)) := by
    unfold roundedSeconds
    rw [sprintf0f_mathRound, hsub, hmag]
  refine ⟨hel, ?_⟩
  intro hcase
  rw [hel]
  unfold nearestSecond
  by_cases hneg : nanosBetween t u < 0
  · have hle : nanosBetween t u ≤ -500000000 := by omega
    have hpos : 0 < roundedMagnitude (nanosBetween t u) := by
      unfold roundedMagnitude
      omega
    rw [if_pos hneg, if_pos hneg, toString_neg_natCast _ hpos]
  · rw [if_neg hneg, if_neg hneg, empty_append_string]
    rfl

/-- C3, as stated, fails on the same three kinds of input as `elapsed_time`:
a `RUNNING` start more than a `Duration` (about 292 years) before `stateTime`
is saturated, a start less than half a second after `stateTime` is printed as
`"-0"`, and from `2^24` seconds on a fraction just below one half is rounded
up. -/
theorem run_time_counterexample :
    ¬ runTimeIsNearest (sampleItem "2024-01-01T00:00:00Z" "2024-01-01T00:00:00Z"
        [⟨"RUNNING", "0001-01-01T00:00:00Z"⟩]) ∧
      ¬ runTimeIsNearest (sampleItem "2024-01-01T00:00:00Z" "2024-01-01T00:00:00Z"
        [⟨"RUNNING", "2024-01-01T00:00:00.4Z"⟩]) ∧
      ¬ runTimeIsNearest (sampleItem "2023-01-01T00:00:00Z" "2023-07-14T04:20:16.499999999Z"
        [⟨"RUNNING", "2023-01-01T00:00:00Z"⟩]) := by
  refine ⟨?_, ?_, ?_⟩
  · intro hall
    have := hall
      ⟨"SPARK", "2024-01-01T00:00:00Z", "user@example.com", "us-central1",
        [("spark_executor_memory", "4g"), ("a_b_c", "1")], "SUCCEEDED", "", "1000", "20",
        "0", "9223372037"⟩ ⟨1704067200, 0⟩ ⟨-62135596800, 0⟩ (by decide) (by decide) (by decide)
    exact absurd this (by decide)
  · intro hall
    have := hall
      ⟨"SPARK", "2024-01-01T00:00:00Z", "user@example.com", "us-central1",
        [("spark_executor_memory", "4g"), ("a_b_c", "1")], "SUCCEEDED", "", "1000", "20",
        "0", "-0"⟩ ⟨1704067200, 0⟩ ⟨1704067200, 400000000⟩ (by decide) (by decide) (by decide)
    exact absurd this (by decide)
  · intro hall
    have := hall
      ⟨"SPARK", "2023-01-01T00:00:00Z", "user@example.com", "us-central1",
        [("spark_executor_memory", "4g"), ("a_b_c", "1")], "SUCCEEDED", "", "1000", "20",
        "16777217", "16777217"⟩ ⟨1689308416, 499999999⟩ ⟨1672531200, 0⟩ (by decide) (by decide)
      (by decide)
    exact absurd this (by decide)

/-- C3, amended. For every written record, `run_time` follows the in-order
scan of `stateHistory`: it is computed from the `stateStartTime` of the first
entry whose state is exactly `"RUNNING"` and whose `stateStartTime` parses, and
it is `"0"` when there is no such entry; every `RUNNING` entry with an
unparseable timestamp met before that point is reported and the scan goes on.
When the difference from that start to `stateTime` is below `2^24` seconds in
magnitude, or is a whole number of seconds that fits a `Duration`, `run_time`
is the sign of the difference followed by its magnitude rounded to the nearest
second, which is the decimal string of the nearest integer unless the
difference is negative and above minus half a second (printed `"-0"`).  The
two worked examples give `"240"` and `"0"`. -/
theorem run_time_scan (item : InputData) (out : OutputData) (s : Time)
    (h : (processItem item).line = some out) (hs : timeParse item.StateTime = some s) :
    (firstRunningStart item.StateHistory = none → out.RunTime = "0") ∧
      (∀ t, firstRunningStart item.StateHistory = some t →
        out.RunTime = sprintf0f (roundedSeconds s t) ∧
        (((-16777216000000000 < nanosBetween s t ∧ nanosBetween s t < 16777216000000000) ∨
            (nanosBetween s t % 1000000000 = 0 ∧ -9223372036854775808 < nanosBetween s t ∧
              nanosBetween s t < 9223372036854775808)) →
          out.RunTime =
              (if nanosBetween s t < 0 then "-" else "") ++
                toString (roundedMagnitude (nanosBetween s t)) ∧
            ((0 ≤ nanosBetween s t ∨ nanosBetween s t ≤ -500000000) →
              out.RunTime = toString (nearestSecond (nanosBetween s t))))) ∧
      (processItem item).diags =
        (unparsedRunning item.StateHistory).map
          (fun e => Diag.parseRunningTime e.StateStartTime) ∧
      (item.StateHistory = [] → out.RunTime = "0") ∧
      ((processItem (sampleItem "2024-01-01T00:00:00Z" "2024-01-01T00:05:00Z"
          [⟨"PENDING", "2024-01-01T00:00:00Z"⟩, ⟨"RUNNING", "2024-01-01T00:01:00Z"⟩])).line.map
        (fun o => o.RunTime) = some "240") ∧
      ((processItem (sampleItem "2024-01-01T00:00:00Z" "2024-01-01T00:05:00Z" [])).line.map
        (fun o => o.RunTime) = some "0") := by
  obtain ⟨hm, c, s', hc, hs'⟩ := line_some_inv item out h
  rw [hs] at hs'
  cases hs'
  have hres := processItem_valid item hm c s hc hs
  have hrun : out.RunTime =
      match firstRunningStart item.StateHistory with
      | some t => sprintf0f (roundedSeconds s t)
      | none => "0" := by
    rw [hres] at h
    simp only [Option.some.injEq] at h
    subst h
    show sprintf0f (runTimeLoop s item.StateHistory).1 = _
    rw [runTimeLoop_fst]
    cases firstRunningStart item.StateHistory with
    | none => exact sprintf0f_zero
    | some t => rfl
  refine ⟨?_, ?_, ?_, ?_, by decide, by decide⟩
  · intro hnone
    rw [hrun, hnone]
  · intro t ht
    have hrt : out.RunTime = sprintf0f (roundedSeconds s t) := by rw [hrun, ht]
    refine ⟨hrt, ?_⟩
    intro hrange
    rw [hrt]
    exact sprintf0f_roundedSeconds s t hrange
  · rw [hres]
    exact runTimeLoop_snd s item.StateHistory
  · intro he
    rw [hrun, he]
    rfl

theorem run_time_scan_witness :
    firstRunningStart [⟨"RUNNING", "soon"⟩, ⟨"RUNNING", "2024-01-01T00:05:00.75Z"⟩,
        ⟨"RUNNING", "2024-01-01T00:02:00Z"⟩] = some ⟨1704067500, 750000000⟩ ∧
      ((-16777216000000000 < nanosBetween ⟨1704067500, 0⟩ ⟨1704067500, 750000000⟩ ∧
          nanosBetween ⟨1704067500, 0⟩ ⟨1704067500, 750000000⟩ < 16777216000000000) ∨
        (nanosBetween ⟨1704067500, 0⟩ ⟨1704067500, 750000000⟩ % 1000000000 = 0 ∧
          -9223372036854775808 < nanosBetween ⟨1704067500, 0⟩ ⟨1704067500, 750000000⟩ ∧
          nanosBetween ⟨1704067500, 0⟩ ⟨1704067500, 750000000⟩ < 9223372036854775808)) ∧
      "-1" = (if nanosBetween ⟨1704067500, 0⟩ ⟨1704067500, 750000000⟩ < 0 then "-" else "") ++
        toString (roundedMagnitude (nanosBetween ⟨1704067500, 0⟩ ⟨1704067500, 750000000⟩)) :=
  ⟨by decide, by decide,
    ((run_time_scan (sampleItem "2024-01-01T00:00:00Z" "2024-01-01T00:05:00Z"
        [⟨"RUNNING", "soon"⟩, ⟨"RUNNING", "2024-01-01T00:05:00.75Z"⟩,
          ⟨"RUNNING", "2024-01-01T00:02:00Z"⟩])
      ⟨"SPARK", "2024-01-01T00:00:00Z", "user@example.com", "us-central1",
        [("spark_executor_memory", "4g"), ("a_b_c", "1")], "SUCCEEDED", "", "1000", "20",
        "300", "-1"⟩ ⟨1704067500, 0⟩ (by decide) (by decide)).2.1 ⟨1704067500, 750000000⟩
      (by decide)).2 (by decide) |>.1⟩

/-! ## Silent skips, independence from `stateHistory`, sanitisation laws -/

/-- C14. A record with an empty required field is skipped without any
diagnostic, whatever its other fields hold: the check of line 95 comes before
every timestamp parse, so the whole observable result of the run (lines and
diagnostics) is that of the run without the record. -/
theorem missing_required_silent (item : InputData) (h : missingRequired item)
    (pre post : List (Except String InputData)) :
    (processItem item).diags = [] ∧ (processItem item).line = none ∧
      processStream (pre ++ Except.ok item :: post) = processStream (pre ++ post) := by
  have hres := processItem_missing item h
  refine ⟨by rw [hres], by rw [hres], ?_⟩
  induction pre with
  | nil => simp [processStream_ok, hres]
  | cons x pre ih =>
    cases x with
    | error e => simp [processStream]
    | ok i => simp [processStream_ok, ih]

theorem missing_required_silent_witness :
    missingRequired (sampleItem "" "not a time" [⟨"RUNNING", "soon"⟩]) ∧
      (processItem (sampleItem "" "not a time" [⟨"RUNNING", "soon"⟩])).diags = [] :=
  ⟨by decide,
    (missing_required_silent (sampleItem "" "not a time" [⟨"RUNNING", "soon"⟩])
      (by decide) [] []).1⟩

/-- C15. A record that passes the required-field check and whose `createTime`
and `stateTime` parse writes exactly one line whatever its `stateHistory`
holds, and apart from `run_time` that line does not depend on `stateHistory`:
`elapsed_time` and all copied fields are the same for any two histories. -/
theorem history_never_aborts (item : InputData) (h : ¬ missingRequired item) (c s : Time)
    (hc : timeParse item.CreateTime = some c) (hs : timeParse item.StateTime = some s)
    (history : List StateHistoryEntry) :
    ∃ out : OutputData,
      (processItem { item with StateHistory := history }).line = some out ∧
      (processAll [{ item with StateHistory := history }]).lines = [out] ∧
      out.ElapsedTime = sprintf0f (roundedSeconds s c) ∧
      ∀ (history' : List StateHistoryEntry) (out' : OutputData),
        (processItem { item with StateHistory := history' }).line = some out' →
        { out' with RunTime := out.RunTime } = out := by
  have hm : ∀ hist, ¬ missingRequired { item with StateHistory := hist } := fun _ => h
  have hres := fun hist => processItem_valid { item with StateHistory := hist } (hm hist) c s hc hs
  refine ⟨_, by rw [hres history], ?_, rfl, ?_⟩
  · unfold processAll
    simp only [List.map_cons, List.map_nil, processStream_ok, hres history]
    rfl
  · intro history' out' h'
    rw [hres history'] at h'
    simp only [Option.some.injEq] at h'
    subst h'
    rfl

theorem history_never_aborts_witness :
    ¬ missingRequired (sampleItem "2024-01-01T00:00:00Z" "2024-01-01T00:05:30Z" []) ∧
      ∃ out : OutputData,
        (processItem { sampleItem "2024-01-01T00:00:00Z" "2024-01-01T00:05:30Z" [] with
          StateHistory := [⟨"RUNNING", "soon"⟩, ⟨"RUNNING", ""⟩] }).line = some out ∧
        (processAll [{ sampleItem "2024-01-01T00:00:00Z" "2024-01-01T00:05:30Z" [] with
          StateHistory := [⟨"RUNNING", "soon"⟩, ⟨"RUNNING", ""⟩] }]).lines = [out] ∧
        out.ElapsedTime = sprintf0f (roundedSeconds ⟨1704067530, 0⟩ ⟨1704067200, 0⟩) ∧
        ∀ (history' : List StateHistoryEntry) (out' : OutputData),
          (processItem { sampleItem "2024-01-01T00:00:00Z" "2024-01-01T00:05:30Z" [] with
            StateHistory := history' }).line = some out' →
          { out' with RunTime := out.RunTime } = out :=
  ⟨by decide,
    history_never_aborts (sampleItem "2024-01-01T00:00:00Z" "2024-01-01T00:05:30Z" [])
      (by decide) ⟨1704067200, 0⟩ ⟨1704067530, 0⟩ (by decide) (by decide)
      [⟨"RUNNING", "soon"⟩, ⟨"RUNNING", ""⟩]⟩

theorem sanitizeChar_ne (c : Char) : sanitizeChar c ≠ ':' ∧ sanitizeChar c ≠ '.' := by
  unfold sanitizeChar
  by_cases h : c = ':' ∨ c = '.'
  · rw [if_pos h]
    exact ⟨by decide, by decide⟩
  · rw [if_neg h]
    push_neg at h
    exact h

theorem sanitizeChar_idem (c : Char) : sanitizeChar (sanitizeChar c) = sanitizeChar c := by
  have h := sanitizeChar_ne c
  unfold sanitizeChar at h ⊢
  by_cases hc : c = ':' ∨ c = '.'
  · simp only [if_pos hc]
    decide
  · simp only [if_neg hc]

/-- C17. Key sanitisation keeps the length of the key, leaves neither `:` nor
`.` in it, is idempotent, and returns a key without `:` and `.` unchanged. -/
theorem sanitizeKey_laws (key : String) :
    (sanitizeKey key).length = key.length ∧
      (∀ c ∈ (sanitizeKey key).data, c ≠ ':' ∧ c ≠ '.') ∧
      sanitizeKey (sanitizeKey key) = sanitizeKey key ∧
      ((∀ c ∈ key.data, c ≠ ':' ∧ c ≠ '.') → sanitizeKey key = key) := by
  refine ⟨?_, ?_, ?_, ?_⟩
  · show (sanitizeKey key).data.length = key.data.length
    rw [sanitizeKey_data, List.length_map]
  · intro c hc
    rw [sanitizeKey_data, List.mem_map] at hc
    obtain ⟨c', _, rfl⟩ := hc
    exact sanitizeChar_ne c'
  · apply String.ext
    rw [sanitizeKey_data, sanitizeKey_data, List.map_map]
    apply List.map_congr_left
    intro c _
    exact sanitizeChar_idem c
  · intro hall
    apply String.ext
    rw [sanitizeKey_data]
    conv_rhs => rw [← List.map_id key.data]
    apply List.map_congr_left
    intro c hc
    have := hall c hc
    simp [sanitizeChar, this.1, this.2]

theorem sanitizeKey_laws_witness :
    (∀ c ∈ ("spark_executor_memory" : String).data, c ≠ ':' ∧ c ≠ '.') ∧
      sanitizeKey "spark_executor_memory" = "spark_executor_memory" :=
  ⟨by decide, (sanitizeKey_laws "spark_executor_memory").2.2.2 (by decide)⟩

/-! ## Colliding sanitised keys -/

theorem mapGet_mapSet (m : List (String × String)) (k v k' : String) :
    mapGet (mapSet m k v) k' = if k = k' then some v else mapGet m k' := by
  induction m with
  | nil => simp [mapSet, mapGet]
  | cons e m ih =>
    obtain ⟨a, b⟩ := e
    by_cases hak : a = k
    · subst hak
      by_cases hak' : a = k' <;> simp [mapSet, mapGet, hak']
    · by_cases hak' : a = k'
      · subst hak'
        have : ¬ k = a := fun e => hak e.symm
        simp [mapSet, mapGet, hak, this]
      · simp [mapSet, mapGet, hak, hak', ih]

theorem mapSet_keys (m : List (String × String)) (k v : String) :
    (mapSet m k v).map Prod.fst =
      if k ∈ m.map Prod.fst then m.map Prod.fst else m.map Prod.fst ++ [k] := by
  induction m with
  | nil => simp [mapSet]
  | cons e m ih =>
    obtain ⟨a, b⟩ := e
    by_cases hak : a = k
    · subst hak
      simp [mapSet]
    · have hka : ¬ k = a := fun e => hak e.symm
      simp only [mapSet, hak, if_false, List.map_cons, ih, List.mem_cons, hka, false_or]
      split <;> simp

theorem mapSet_nodup (m : List (String × String)) (k v : String)
    (h : (m.map Prod.fst).Nodup) : ((mapSet m k v).map Prod.fst).Nodup := by
  rw [mapSet_keys]
  split
  · exact h
  · rename_i hk
    rw [List.nodup_append]
    refine ⟨h, by simp, ?_⟩
    intro a ha hb
    simp only [List.mem_singleton] at hb
    subst hb
    exact hk ha

theorem mapSet_length_le (m : List (String × String)) (k v : String) :
    (mapSet m k v).length ≤ m.length + 1 := by
  induction m with
  | nil => simp [mapSet]
  | cons e m ih =>
    obtain ⟨a, b⟩ := e
    by_cases hak : a = k
    · simp [mapSet, hak]
    · simp [mapSet, hak]
      omega

theorem mapGet_eq_some_iff (m : List (String × String)) (h : (m.map Prod.fst).Nodup)
    (k v : String) : mapGet m k = some v ↔ (k, v) ∈ m := by
  induction m with
  | nil => simp [mapGet]
  | cons e m ih =>
    obtain ⟨a, b⟩ := e
    simp only [List.map_cons, List.nodup_cons] at h
    by_cases hak : a = k
    · subst hak
      simp only [mapGet, if_true, Option.some.injEq, List.mem_cons, Prod.mk.injEq, true_and]
      constructor
      · intro hb; left; exact hb.symm
      · rintro (hb | hb)
        · exact hb.symm
        · exact absurd (List.mem_map_of_mem Prod.fst hb) h.1
    · have hka : ¬ k = a := fun e => hak e.symm
      simp [mapGet, hak, hka, ih h.2]

theorem mapGet_isSome_iff (m : List (String × String)) (k : String) :
    (mapGet m k).isSome = true ↔ k ∈ m.map Prod.fst := by
  induction m with
  | nil => simp [mapGet]
  | cons e m ih =>
    obtain ⟨a, b⟩ := e
    by_cases hak : a = k
    · subst hak
      simp [mapGet]
    · have hka : ¬ k = a := fun e => hak e.symm
      simp [mapGet, hak, hka, ih]

theorem sanitizeLoop_nodup (props acc : List (String × String))
    (h : (acc.map Prod.fst).Nodup) : ((sanitizeLoop props acc).map Prod.fst).Nodup := by
  induction props generalizing acc with
  | nil => exact h
  | cons e props ih =>
    obtain ⟨key, value⟩ := e
    exact ih _ (mapSet_nodup acc _ value h)

theorem sanitizeLoop_length_le (props acc : List (String × String)) :
    (sanitizeLoop props acc).length ≤ acc.length + props.length := by
  induction props generalizing acc with
  | nil => simp [sanitizeLoop]
  | cons e props ih =>
    obtain ⟨key, value⟩ := e
    have h1 := ih (mapSet acc (sanitizeKey key) value)
    have h2 := mapSet_length_le acc (sanitizeKey key) value
    simp only [sanitizeLoop, List.length_cons]
    omega

theorem mapGet_sanitizeLoop (props acc : List (String × String)) (k : String) :
    mapGet (sanitizeLoop props acc) k =
      match props.reverse.find? (fun kv => decide (sanitizeKey kv.1 = k)) with
      | some kv => some kv.2
      | none => mapGet acc k := by
  induction props generalizing acc with
  | nil => simp [sanitizeLoop]
  | cons e props ih =>
    obtain ⟨key, value⟩ := e
    simp only [sanitizeLoop, ih, List.reverse_cons, List.find?_append, mapGet_mapSet]
    cases hf : props.reverse.find? (fun kv => decide (sanitizeKey kv.1 = k)) with
    | some kv => simp
    | none =>
      by_cases hk : sanitizeKey key = k
      · simp [hk, List.find?]
      · simp [hk, List.find?]

/-- C13. For every written record the keys of `properties` are pairwise
distinct and are exactly the sanitised input keys, so a sanitised key shared by
several input keys has one entry; its value is that of the last input entry, in
the order of iteration, whose key sanitises to it (last write wins); the
output never has more entries than the input. -/
theorem properties_last_write_wins (item : InputData) (out : OutputData)
    (h : (processItem item).line = some out) :
    (out.Properties.map Prod.fst).Nodup ∧
      (∀ k, k ∈ out.Properties.map Prod.fst ↔
        k ∈ item.Properties.map (fun kv => sanitizeKey kv.1)) ∧
      (∀ k v, (k, v) ∈ out.Properties ↔
        (item.Properties.reverse.find? (fun kv => decide (sanitizeKey kv.1 = k))).map Prod.snd
          = some v) ∧
      out.Properties.length ≤ item.Properties.length ∧
      sanitizeProperties [("a.b", "1"), ("x", "0"), ("a:b", "2")] = [("a_b", "2"), ("x", "0")] := by
  obtain ⟨hm, c, s, hc, hs⟩ := line_some_inv item out h
  rw [processItem_valid item hm c s hc hs] at h
  simp only [Option.some.injEq] at h
  subst h
  show ((sanitizeProperties item.Properties).map Prod.fst).Nodup ∧
    (∀ k, k ∈ (sanitizeProperties item.Properties).map Prod.fst ↔ _) ∧
    (∀ k v, (k, v) ∈ sanitizeProperties item.Properties ↔ _) ∧
    (sanitizeProperties item.Properties).length ≤ _ ∧ _
  have hnd : ((sanitizeProperties item.Properties).map Prod.fst).Nodup :=
    sanitizeLoop_nodup item.Properties [] (by simp)
  have hget : ∀ k, mapGet (sanitizeProperties item.Properties) k =
      (item.Properties.reverse.find? (fun kv => decide (sanitizeKey kv.1 = k))).map Prod.snd := by
    intro k
    unfold sanitizeProperties
    rw [mapGet_sanitizeLoop]
    cases item.Properties.reverse.find? (fun kv => decide (sanitizeKey kv.1 = k)) <;> rfl
  refine ⟨hnd, ?_, ?_, ?_, by decide⟩
  · intro k
    rw [← mapGet_isSome_iff, hget]
    simp only [Option.isSome_map', List.find?_isSome, List.mem_reverse, decide_eq_true_eq,
      List.mem_map]
  · intro k v
    rw [← mapGet_eq_some_iff _ hnd, hget]
  · have := sanitizeLoop_length_le item.Properties []
    simpa [sanitizeProperties] using this

theorem properties_last_write_wins_witness :
    (("a_b", "2") ∈ sanitizeProperties [("a.b", "1"), ("x", "0"), ("a:b", "2")] ↔
      ([("a.b", "1"), ("x", "0"), ("a:b", "2")].reverse.find?
        (fun kv => decide (sanitizeKey kv.1 = "a_b"))).map Prod.snd = some "2") :=
  (properties_last_write_wins
    { sampleItem "2024-01-01T00:00:00Z" "2024-01-01T00:05:30Z" [] with
      Properties := [("a.b", "1"), ("x", "0"), ("a:b", "2")] }
    ⟨"SPARK", "2024-01-01T00:00:00Z", "user@example.com", "us-central1",
      sanitizeProperties [("a.b", "1"), ("x", "0"), ("a:b", "2")], "SUCCEEDED", "", "1000", "20",
      "330", "0"⟩ (by decide)).2.2.1 "a_b" "2"

/-! ## Exit status -/

theorem runFiles_exitCode (env : Env) : (runFiles env).exitCode = 0 := by
  unfold runFiles
  cases env.openErr with
  | some e => rfl
  | none =>
    cases env.createErr with
    | some e => rfl
    | none =>
      cases env.openTokenErr with
      | some e => rfl
      | none =>
        by_cases hd : decodeFails env.stream = true
        · simp [hd]
        · cases hcl : env.closeTokenErr <;> simp [hd, hcl]

/-- C11, as stated, fails in three ways: when the input file cannot be opened
`main` prints the error and returns, so the process ends with status 0; the
same holds when the output file cannot be created; and with both required
flags given, an undefined flag makes `flag.Parse` end the process with
status 2. -/
theorem exit_status_counterexample :
    ¬ exitReflectsSetup
        { sampleEnv ["-input", "batches.json", "-output", "flat.jsonl"] [] with
          openErr := some "open batches.json: no such file or directory" } ∧
      ¬ exitReflectsSetup
        { sampleEnv ["-input", "batches.json", "-output", "flat.jsonl"] [] with
          createErr := some "open flat.jsonl: permission denied" } ∧
      ¬ exitReflectsSetup
        (sampleEnv ["-input", "batches.json", "-output", "flat.jsonl", "-verbose"] []) := by
  refine ⟨by decide, by decide, by decide⟩

/-- C11, amended. The exit status is 2 exactly when `flag.Parse` rejects the
command line, 1 exactly when the command line is accepted and leaves the input
or the output path empty, and 0 in every other case: the help request, a
failure to open the input or to create the output, a failing first token, a
decode failure in the array and per-record errors all leave it at 0. -/
theorem exit_status (env : Env) :
    (runMain env).exitCode =
        (match flagParse env.args "" "" with
          | FlagOutcome.exitHelp => 0
          | FlagOutcome.exitError => 2
          | FlagOutcome.parsed inputFile outputFile =>
            if inputFile = "" ∨ outputFile = "" then 1 else 0) ∧
      ((runMain env).exitCode = 2 ↔ flagParse env.args "" "" = FlagOutcome.exitError) ∧
      ((runMain env).exitCode = 1 ↔ requiredFlagMissing env) ∧
      (∀ inputFile outputFile, flagParse env.args "" "" = FlagOutcome.parsed inputFile outputFile →
        inputFile ≠ "" → outputFile ≠ "" → (runMain env).exitCode = 0) ∧
      (runMain (sampleEnv ["-h"] [])).exitCode = 0 ∧
      (runMain (sampleEnv ["-input", "batches.json"] [])).exitCode = 1 ∧
      (runMain (sampleEnv ["--input=batches.json", "-output"] [])).exitCode = 2 := by
  have key : (runMain env).exitCode =
      (match flagParse env.args "" "" with
        | FlagOutcome.exitHelp => 0
        | FlagOutcome.exitError => 2
        | FlagOutcome.parsed inputFile outputFile =>
          if inputFile = "" ∨ outputFile = "" then 1 else 0) := by
    unfold runMain
    cases flagParse env.args "" "" with
    | exitHelp => rfl
    | exitError => rfl
    | parsed i o =>
      by_cases hf : i = "" ∨ o = ""
      · simp [hf]
      · simp only [if_neg hf]
        exact runFiles_exitCode env
  refine ⟨key, ?_, ?_, ?_, by decide, by decide, by decide⟩
  · rw [key]
    cases flagParse env.args "" "" with
    | exitHelp => simp
    | exitError => simp
    | parsed i o => by_cases hf : i = "" ∨ o = "" <;> simp [hf]
  · rw [key]
    unfold requiredFlagMissing
    cases flagParse env.args "" "" with
    | exitHelp => simp
    | exitError => simp
    | parsed i o => by_cases hf : i = "" ∨ o = "" <;> simp [hf]
  · intro i o hp hi ho
    rw [key, hp]
    simp [hi, ho]

theorem exit_status_witness :
    flagParse ["-input", "batches.json", "-output", "flat.jsonl"] "" ""
        = FlagOutcome.parsed "batches.json" "flat.jsonl" ∧
      (runMain { sampleEnv ["-input", "batches.json", "-output", "flat.jsonl"]
          [Except.error "unexpected end of JSON input"] with
        openTokenErr := none }).exitCode = 0 :=
  ⟨by decide,
    (exit_status { sampleEnv ["-input", "batches.json", "-output", "flat.jsonl"]
        [Except.error "unexpected end of JSON input"] with
      openTokenErr := none }).2.2.2.1 "batches.json" "flat.jsonl" (by decide) (by decide)
      (by decide)⟩

/-! ## Rounding is a monotone function of the rational it rounds -/

theorem binade_unique (x : ℚ) (b b' : Int) (h1 : (2 : ℚ) ^ b ≤ x) (h2 : x < (2 : ℚ) ^ (b + 1))
    (h1' : (2 : ℚ) ^ b' ≤ x) (h2' : x < (2 : ℚ) ^ (b' + 1)) : b = b' := by
  rcases lt_trichotomy b b' with h | h | h
  · have : (2 : ℚ) ^ (b + 1) ≤ (2 : ℚ) ^ b' := zpow_le_zpow_right₀ (by norm_num) (by omega)
    linarith
  · exact h
  · have : (2 : ℚ) ^ (b' + 1) ≤ (2 : ℚ) ^ b := zpow_le_zpow_right₀ (by norm_num) (by omega)
    linarith

theorem roundHalfEven_eq_frac (n d : Nat) (hd : 0 < d) :
    roundHalfEven n d =
      if (1 : ℚ) / 2 < (n : ℚ) / d - (⌊(n : ℚ) / d⌋₊ : ℚ) ∨
          ((n : ℚ) / d - (⌊(n : ℚ) / d⌋₊ : ℚ) = 1 / 2 ∧ ⌊(n : ℚ) / d⌋₊ % 2 = 1)
      then ⌊(n : ℚ) / d⌋₊ + 1 else ⌊(n : ℚ) / d⌋₊ := by
  have hdq : (0 : ℚ) < d := by exact_mod_cast hd
  have hfl : ⌊(n : ℚ) / d⌋₊ = n / d := Nat.floor_div_eq_div n d
  have hn : (n : ℚ) = (d : ℚ) * ((n / d : Nat) : ℚ) + ((n % d : Nat) : ℚ) := by
    exact_mod_cast (Nat.div_add_mod n d).symm
  have hfrac : (n : ℚ) / d - ((n / d : Nat) : ℚ) = ((n % d : Nat) : ℚ) / d := by
    rw [hn]
    field_simp
  rw [hfl, hfrac]
  unfold roundHalfEven
  have c1 : (d < 2 * (n % d)) ↔ (1 : ℚ) / 2 < ((n % d : Nat) : ℚ) / d := by
    rw [lt_div_iff₀ hdq]
    constructor
    · intro h
      have : (d : ℚ) < 2 * ((n % d : Nat) : ℚ) := by exact_mod_cast h
      linarith
    · intro h
      have : (d : ℚ) < 2 * ((n % d : Nat) : ℚ) := by linarith
      exact_mod_cast this
  have c2 : (2 * (n % d) = d) ↔ ((n % d : Nat) : ℚ) / d = 1 / 2 := by
    rw [div_eq_iff (ne_of_gt hdq)]
    constructor
    · intro h
      have : 2 * ((n % d : Nat) : ℚ) = (d : ℚ) := by exact_mod_cast h
      linarith
    · intro h
      have : 2 * ((n % d : Nat) : ℚ) = (d : ℚ) := by linarith
      exact_mod_cast this
  simp only [c1, c2]

theorem roundHalfEven_congr (n d n' d' : Nat) (hd : 0 < d) (hd' : 0 < d')
    (h : (n : ℚ) / d = (n' : ℚ) / d') : roundHalfEven n d = roundHalfEven n' d' := by
  rw [roundHalfEven_eq_frac n d hd, roundHalfEven_eq_frac n' d' hd', h]

theorem roundNearestEven_congr (p q p' q' : Nat) (hq : 0 < q) (hq' : 0 < q')
    (h : (p : ℚ) / q = (p' : ℚ) / q') : roundNearestEven p q = roundNearestEven p' q' := by
  have hqq : (0 : ℚ) < q := by exact_mod_cast hq
  have hqq' : (0 : ℚ) < q' := by exact_mod_cast hq'
  rcases Nat.eq_zero_or_pos p with hp | hp
  · subst hp
    have : p' = 0 := by
      have h0 : (p' : ℚ) / q' = 0 := by rw [← h]; simp
      have : (p' : ℚ) = 0 := by
        rcases div_eq_zero_iff.1 h0 with h1 | h1
        · exact h1
        · exact absurd h1 (ne_of_gt hqq')
      exact_mod_cast this
    subst this
    simp [roundNearestEven]
  · have hp' : 0 < p' := by
      rcases Nat.eq_zero_or_pos p' with h0 | h0
      · subst h0
        have hpq : (0 : ℚ) < (p : ℚ) / q := by positivity
        rw [h] at hpq
        simp at hpq
      · exact h0
    obtain ⟨a1, a2⟩ := binade_spec p q hp hq
    obtain ⟨b1, b2⟩ := binade_spec p' q' hp' hq'
    rw [h] at a1 a2
    have hb : binade p q = binade p' q' := binade_unique _ _ _ a1 a2 b1 b2
    unfold roundNearestEven
    rw [if_neg (by omega), if_neg (by omega), hb]
    show (roundHalfEven _ _, _) = (roundHalfEven _ _, _)
    congr 1
    apply roundHalfEven_congr _ _ _ _ (by positivity) (by positivity)
    push_cast
    rw [mul_div_mul_comm, mul_div_mul_comm, h]

theorem rneVal_congr (p q p' q' : Nat) (hq : 0 < q) (hq' : 0 < q')
    (h : (p : ℚ) / q = (p' : ℚ) / q') : rneVal p q = rneVal p' q' := by
  unfold rneVal
  rw [roundNearestEven_congr p q p' q' hq hq' h]

theorem rneVal_nonneg (p q : Nat) : 0 ≤ rneVal p q := by
  unfold rneVal
  have := two_zpow_pos (roundNearestEven p q).2
  positivity

/-- The rounding is monotone. -/
theorem rneVal_mono (p q p' q' : Nat) (hq : 0 < q) (hq' : 0 < q')
    (h : (p : ℚ) / q ≤ (p' : ℚ) / q') : rneVal p q ≤ rneVal p' q' := by
  rcases eq_or_lt_of_le h with heq | hlt
  · exact le_of_eq (rneVal_congr p q p' q' hq hq' heq)
  · rcases Nat.eq_zero_or_pos p with hp | hp
    · subst hp
      rw [rneVal_zero]
      exact rneVal_nonneg p' q'
    · have hqq : (0 : ℚ) < q := by exact_mod_cast hq
      have hpq : (0 : ℚ) < (p : ℚ) / q := by
        have : (0 : ℚ) < p := by exact_mod_cast hp
        positivity
      have hp' : 0 < p' := by
        rcases Nat.eq_zero_or_pos p' with h0 | h0
        · subst h0
          simp at hlt
          linarith
        · exact h0
      obtain ⟨_, m1, n1⟩ := rne_spec p q hp hq
      obtain ⟨_, m2, n2⟩ := rne_spec p' q' hp' hq'
      have k1 := n1 (roundNearestEven p' q').1 (roundNearestEven p' q').2 m2
      have k2 := n2 (roundNearestEven p q).1 (roundNearestEven p q).2 m1
      have e1 : ((roundNearestEven p' q').1 : ℚ) * (2 : ℚ) ^ (roundNearestEven p' q').2
          = rneVal p' q' := rfl
      have e2 : ((roundNearestEven p q).1 : ℚ) * (2 : ℚ) ^ (roundNearestEven p q).2
          = rneVal p q := rfl
      rw [e1] at k1
      rw [e2] at k2
      by_contra hcon
      push_neg at hcon
      rcases abs_cases (rneVal p q - (p : ℚ) / q) with ⟨c1, _⟩ | ⟨c1, _⟩ <;>
        rcases abs_cases (rneVal p' q' - (p : ℚ) / q) with ⟨c2, _⟩ | ⟨c2, _⟩ <;>
        rcases abs_cases (rneVal p' q' - (p' : ℚ) / q') with ⟨c3, _⟩ | ⟨c3, _⟩ <;>
        rcases abs_cases (rneVal p q - (p' : ℚ) / q') with ⟨c4, _⟩ | ⟨c4, _⟩ <;>
        rw [c1, c2] at k1 <;> rw [c3, c4] at k2 <;> linarith

theorem mathRound_man_le (x : F64) : ((mathRound x).man : ℚ) ≤ x.val + 1 / 2 := by
  have hd : 0 < x.den := x.den_pos
  have hdq : (0 : ℚ) < x.den := by exact_mod_cast hd
  have hv : x.val = (x.num : ℚ) / x.den := (F64.num_div_den x).symm
  have e1 : (x.num : ℚ) / x.den + 1 / 2
      = ((2 * x.num + x.den : Nat) : ℚ) / ((2 * x.den : Nat) : ℚ) := by
    push_cast
    field_simp
    ring
  rw [hv, e1]
  show (((2 * x.num + x.den) / (2 * x.den) : Nat) : ℚ) ≤ _
  exact Nat.cast_div_le

theorem mathRound_man_mono (x y : F64) (h : x.val ≤ y.val) :
    (mathRound x).man ≤ (mathRound y).man :=
  mathRound_man_ge y _ (by have := mathRound_man_le x; linarith)

theorem fracF_mono (n n' : Nat) (hn : n ≤ n') (hn' : n' ≤ 2 ^ 53) :
    (fracF n).val ≤ (fracF n').val := by
  obtain ⟨p, q, hq, hv, hpq⟩ := fracF_val n (le_trans hn hn')
  obtain ⟨p', q', hq', hv', hpq'⟩ := fracF_val n' hn'
  rw [hv, hv']
  apply rneVal_mono p q p' q' hq hq'
  rw [hpq, hpq']
  have : (n : ℚ) ≤ n' := by exact_mod_cast hn
  exact div_le_div_of_nonneg_right this (by norm_num)

theorem fracF_le_one (n : Nat) (hn : n < 1000000000) : (fracF n).val ≤ 1 := by
  obtain ⟨p, q, hq, hv, hpq⟩ := fracF_val n (by omega)
  have hnq : (n : ℚ) ≤ 1000000000 := by exact_mod_cast (le_of_lt hn)
  have := rneVal_le p q hq 1 0 (by norm_num) (by
    rw [hpq, div_le_iff₀ (by norm_num)]
    norm_num
    linarith)
  rw [hv]
  simpa using this

/-- The rounded magnitude is monotone in the duration. -/
theorem secondsMag_mono (a a' : Nat) (h : a ≤ a') (ha : a' ≤ 2 ^ 63) :
    secondsMag a ≤ secondsMag a' := by
  rw [secondsMag_eq, secondsMag_eq]
  apply mathRound_man_mono
  set S : Nat := a / 1000000000 with hS
  set N : Nat := a % 1000000000 with hN
  set S' : Nat := a' / 1000000000 with hS'
  set N' : Nat := a' % 1000000000 with hN'
  have hx : (F64.ofInt (S : Int)).neg = false := by rw [F64.ofInt_natCast]
  have hx' : (F64.ofInt (S' : Int)).neg = false := by rw [F64.ofInt_natCast]
  have hxv : (F64.ofInt (S : Int)).val = S := ofInt_val S (by omega)
  have hxv' : (F64.ofInt (S' : Int)).val = S' := ofInt_val S' (by omega)
  obtain ⟨hsv, hratio⟩ := F64.add_val (F64.ofInt (S : Int)) (fracF N) hx (fracF_neg N)
  obtain ⟨hsv', hratio'⟩ := F64.add_val (F64.ofInt (S' : Int)) (fracF N') hx' (fracF_neg N')
  rw [hxv] at hratio
  rw [hxv'] at hratio'
  rw [hsv, hsv']
  apply rneVal_mono _ _ _ _ (Nat.mul_pos (F64.den_pos _) (F64.den_pos _))
    (Nat.mul_pos (F64.den_pos _) (F64.den_pos _))
  rw [hratio, hratio']
  have hSS : S ≤ S' := Nat.div_le_div_right h
  rcases Nat.eq_or_lt_of_le hSS with heq | hlt
  · have hNN : N ≤ N' := by omega
    have := fracF_mono N N' hNN (by omega)
    rw [heq]
    linarith
  · have h1 : (fracF N).val ≤ 1 := fracF_le_one N (by omega)
    have h2 : 0 ≤ (fracF N').val := F64.val_nonneg _
    have h3 : (S : ℚ) + 1 ≤ S' := by exact_mod_cast hlt
    linarith

theorem mathRound_durationSeconds (d : Int) :
    mathRound (durationSeconds d) = ⟨decide (d < 0), secondsMag d.natAbs, 0⟩ := by
  rcases lt_or_le d 0 with hneg | hpos
  · obtain ⟨a, rfl⟩ : ∃ a : Nat, d = -(a : Int) := ⟨d.natAbs, by omega⟩
    have ha : 0 < a := by omega
    rw [durationSeconds_neg a ha]
    simp only [Int.natAbs_neg, Int.natAbs_ofNat, hneg, decide_True]
    rfl
  · obtain ⟨a, rfl⟩ : ∃ a : Nat, d = (a : Int) := ⟨d.natAbs, by omega⟩
    have hnn : ¬ (a : Int) < 0 := by omega
    simp only [Int.natAbs_ofNat, hnn, decide_False]
    show (⟨(durationSeconds (a : Int)).neg, _, 0⟩ : F64) = _
    rw [durationSeconds_natCast_neg]
    rfl

theorem roundedSecondsInt_eq (t u : Time) :
    roundedSecondsInt t u =
      if timeSub t u < 0 then -((secondsMag (timeSub t u).natAbs : Nat) : Int)
      else ((secondsMag (timeSub t u).natAbs : Nat) : Int) := by
  unfold roundedSecondsInt roundedSeconds
  rw [mathRound_durationSeconds]
  by_cases h : timeSub t u < 0 <;> simp [h]

theorem timeSub_bounds (t u : Time) :
    -9223372036854775808 ≤ timeSub t u ∧ timeSub t u ≤ 9223372036854775807 := by
  have hmin : minDuration = -9223372036854775808 := by decide
  have hmax : maxDuration = 9223372036854775807 := by decide
  unfold timeSub
  simp only [hmin, hmax]
  split
  · omega
  · split <;> omega

theorem timeSub_mono (t u t' u' : Time) (h : nanosBetween t u ≤ nanosBetween t' u') :
    timeSub t u ≤ timeSub t' u' := by
  have hmin : minDuration = -9223372036854775808 := by decide
  have hmax : maxDuration = 9223372036854775807 := by decide
  have e : ∀ a b : Time, (a.sec - b.sec) * 1000000000 + ((a.nsec : Int) - (b.nsec : Int))
      = nanosBetween a b := fun _ _ => rfl
  unfold timeSub
  simp only [e, hmin, hmax]
  split <;> split <;> try split
  all_goals try split
  all_goals omega

/-- The integer returned by the rounding is monotone in the exact difference. -/
theorem roundedSecondsInt_mono (t u t' u' : Time) (h : nanosBetween t u ≤ nanosBetween t' u') :
    roundedSecondsInt t u ≤ roundedSecondsInt t' u' := by
  have hm := timeSub_mono t u t' u' h
  obtain ⟨b1, b2⟩ := timeSub_bounds t u
  obtain ⟨b1', b2'⟩ := timeSub_bounds t' u'
  rw [roundedSecondsInt_eq, roundedSecondsInt_eq]
  by_cases h1 : timeSub t u < 0
  · by_cases h2 : timeSub t' u' < 0
    · rw [if_pos h1, if_pos h2]
      have := secondsMag_mono (timeSub t' u').natAbs (timeSub t u).natAbs (by omega) (by omega)
      omega
    · rw [if_pos h1, if_neg h2]
      omega
  · have h2 : ¬ timeSub t' u' < 0 := by omega
    rw [if_neg h1, if_neg h2]
    have := secondsMag_mono (timeSub t u).natAbs (timeSub t' u').natAbs (by omega) (by omega)
    omega

/-- A duration of `k + 1/2` seconds that fits a `Duration` rounds to `k + 1`. -/
theorem secondsMag_half (a : Nat) (hh : a % 1000000000 = 500000000) (ha : a < 2 ^ 63) :
    secondsMag a = a / 1000000000 + 1 := by
  rw [secondsMag_eq, hh]
  set S : Nat := a / 1000000000 with hS
  have hSlt : S ≤ 2 ^ 53 := by omega
  have hx1 : (F64.ofInt (S : Int)).neg = false := by rw [F64.ofInt_natCast]
  have hx1v : (F64.ofInt (S : Int)).val = S := ofInt_val S hSlt
  obtain ⟨p, q, hq, hyv, hpq⟩ := fracF_val 500000000 (by norm_num)
  have hy : (fracF 500000000).val = 1 / 2 := by
    rw [hyv, rneVal_exact p q hq 1 (-1) (by norm_num) (by rw [hpq]; norm_num), hpq]
    norm_num
  obtain ⟨hsv, hratio⟩ :=
    F64.add_val (F64.ofInt (S : Int)) (fracF 500000000) hx1 (fracF_neg 500000000)
  rw [hx1v, hy] at hratio
  have hD : 0 < (F64.ofInt (S : Int)).den * (fracF 500000000).den :=
    Nat.mul_pos (F64.den_pos _) (F64.den_pos _)
  have hv : (F64.add (F64.ofInt (S : Int)) (fracF 500000000)).val = (S : ℚ) + 1 / 2 := by
    rw [hsv, rneVal_exact _ _ hD (2 * S + 1) (-1) (by omega) (by
      rw [hratio]
      push_cast
      norm_num
      ring), hratio]
  exact mathRound_man (F64.add (F64.ofInt (S : Int)) (fracF 500000000)) (S + 1)
    (by rw [hv]; push_cast; linarith) (by rw [hv]; push_cast; linarith)

/-! ## The rounding of seconds (C18) and run time against elapsed time (C16) -/

/-- C18, as stated, fails for some pairs of parseable timestamps: a difference
beyond the range of a `Duration` is saturated, and from `2^24` seconds on a
fraction of 0.499999999 s is rounded up, so the result is more than half a
second from the exact difference. -/
theorem rounding_counterexample :
    (timeParse "2024-01-01T00:00:00Z" = some ⟨1704067200, 0⟩ ∧
        timeParse "0001-01-01T00:00:00Z" = some ⟨-62135596800, 0⟩ ∧
        ¬ roundingWithinHalf ⟨1704067200, 0⟩ ⟨-62135596800, 0⟩) ∧
      (timeParse "2023-07-14T04:20:16.499999999Z" = some ⟨1689308416, 499999999⟩ ∧
        timeParse "2023-01-01T00:00:00Z" = some ⟨1672531200, 0⟩ ∧
        ¬ roundingWithinHalf ⟨1689308416, 499999999⟩ ⟨1672531200, 0⟩) := by
  refine ⟨⟨by decide, by decide, by decide⟩, by decide, by decide, by decide⟩

/-- C18, amended. The rounding rounds halves away from zero: below `2^24`
seconds in magnitude the result is the nearest integer, within half a second
of the exact difference; and for every difference that fits a `Duration`,
exactly `k + 1/2` seconds gives `k + 1` and exactly `-(k + 1/2)` seconds gives
`-(k + 1)`. -/
theorem rounding_half_away (t u : Time) :
    ((-16777216000000000 < nanosBetween t u ∧ nanosBetween t u < 16777216000000000) →
        roundedSecondsInt t u = nearestSecond (nanosBetween t u) ∧ roundingWithinHalf t u) ∧
      (∀ k : Nat, nanosBetween t u = (k : Int) * 1000000000 + 500000000 →
        nanosBetween t u < 9223372036854775808 → roundedSecondsInt t u = (k : Int) + 1) ∧
      (∀ k : Nat, nanosBetween t u = -((k : Int) * 1000000000 + 500000000) →
        -9223372036854775808 < nanosBetween t u → roundedSecondsInt t u = -((k : Int) + 1)) := by
  have hmin : minDuration = -9223372036854775808 := by decide
  have hmax : maxDuration = 9223372036854775807 := by decide
  refine ⟨?_, ?_, ?_⟩
  · rintro ⟨h1, h2⟩
    have hsub : timeSub t u = nanosBetween t u :=
      timeSub_eq t u (by rw [hmin]; omega) (by rw [hmax]; omega)
    have hval : roundedSecondsInt t u = nearestSecond (nanosBetween t u) := by
      rw [roundedSecondsInt_eq, hsub, secondsMag_small _ (by omega)]
      rfl
    refine ⟨hval, ?_⟩
    unfold roundingWithinHalf
    rw [hval, abs_le]
    unfold nearestSecond roundedMagnitude
    split <;> constructor <;> omega
  · intro k hk hlt
    have hsub : timeSub t u = nanosBetween t u :=
      timeSub_eq t u (by rw [hmin]; omega) (by rw [hmax]; omega)
    rw [roundedSecondsInt_eq, hsub, if_neg (by omega),
      secondsMag_half _ (by omega) (by omega)]
    omega
  · intro k hk hlt
    have hsub : timeSub t u = nanosBetween t u :=
      timeSub_eq t u (by rw [hmin]; omega) (by rw [hmax]; omega)
    rw [roundedSecondsInt_eq, hsub, if_pos (by omega),
      secondsMag_half _ (by omega) (by omega)]
    omega

theorem rounding_half_away_witness :
    nanosBetween ⟨1704067200, 0⟩ ⟨1704067202, 500000000⟩
        = -(((2 : Nat) : Int) * 1000000000 + 500000000) ∧
      -9223372036854775808 < nanosBetween ⟨1704067200, 0⟩ ⟨1704067202, 500000000⟩ ∧
      roundedSecondsInt ⟨1704067200, 0⟩ ⟨1704067202, 500000000⟩ = -(((2 : Nat) : Int) + 1) :=
  ⟨by decide, by decide,
    (rounding_half_away ⟨1704067200, 0⟩ ⟨1704067202, 500000000⟩).2.2 2 (by decide)
      (by decide)⟩

/-- C16. For every written record whose first `RUNNING` entry with a parseable
`stateStartTime` is not earlier than `createTime`, `run_time` is at most
`elapsed_time` as integers: both strings are a sign and the digits of the
rounded value, and the rounded values compare. -/
theorem run_time_le_elapsed (item : InputData) (out : OutputData) (c s t : Time)
    (h : (processItem item).line = some out) (hc : timeParse item.CreateTime = some c)
    (hs : timeParse item.StateTime = some s)
    (ht : firstRunningStart item.StateHistory = some t) (hge : 0 ≤ nanosBetween t c) :
    out.RunTime =
        (if (roundedSeconds s t).neg then "-" else "") ++ toString (roundedSeconds s t).man ∧
      out.ElapsedTime =
        (if (roundedSeconds s c).neg then "-" else "") ++ toString (roundedSeconds s c).man ∧
      roundedSecondsInt s t ≤ roundedSecondsInt s c := by
  obtain ⟨hm, _⟩ := line_some_inv item out h
  rw [processItem_valid item hm c s hc hs] at h
  simp only [Option.some.injEq] at h
  subst h
  have hfmt : ∀ a b : Time, sprintf0f (roundedSeconds a b) =
      (if (roundedSeconds a b).neg then "-" else "") ++ toString (roundedSeconds a b).man := by
    intro a b
    have e : roundedSeconds a b = ⟨(roundedSeconds a b).neg, (roundedSeconds a b).man, 0⟩ := by
      unfold roundedSeconds
      rw [mathRound_durationSeconds]
    conv_lhs => rw [e]
    exact sprintf0f_int _ _
  refine ⟨?_, hfmt s c, ?_⟩
  · show sprintf0f (runTimeLoop s item.StateHistory).1 = _
    rw [runTimeLoop_fst, ht]
    exact hfmt s t
  · apply roundedSecondsInt_mono
    unfold nanosBetween at hge ⊢
    omega

theorem run_time_le_elapsed_witness :
    firstRunningStart [⟨"PENDING", "2024-01-01T00:00:00Z"⟩, ⟨"RUNNING", "2024-01-01T00:01:00Z"⟩]
        = some ⟨1704067260, 0⟩ ∧
      (0 : Int) ≤ nanosBetween ⟨1704067260, 0⟩ ⟨1704067200, 0⟩ ∧
      roundedSecondsInt ⟨1704067500, 0⟩ ⟨1704067260, 0⟩
        ≤ roundedSecondsInt ⟨1704067500, 0⟩ ⟨1704067200, 0⟩ :=
  ⟨by decide, by decide,
    (run_time_le_elapsed
      (sampleItem "2024-01-01T00:00:00Z" "2024-01-01T00:05:00Z"
        [⟨"PENDING", "2024-01-01T00:00:00Z"⟩, ⟨"RUNNING", "2024-01-01T00:01:00Z"⟩])
      ⟨"SPARK", "2024-01-01T00:00:00Z", "user@example.com", "us-central1",
        [("spark_executor_memory", "4g"), ("a_b_c", "1")], "SUCCEEDED", "", "1000", "20",
        "300", "240"⟩ ⟨1704067200, 0⟩ ⟨1704067500, 0⟩ ⟨1704067260, 0⟩ (by decide) (by decide)
      (by decide) (by decide) (by decide)).2.2⟩

end DataprocFlatten
